import Mathlib

/-!
# DerandomPlayer (porrinha-royer): a shallow embedding of `src/derandom/derandom.cpp`

Conventions of the embedding.

* C++ `int` values are Lean `Int`; the development covers the executions in
  which no signed overflow happens (signed overflow is undefined behaviour in
  C++, so there is no wrap-around semantics to model).  `int / int` is
  `Int.tdiv` (truncation toward zero).
* C++ `double` values are exact rationals `ℚ`.  The two places where the
  program divides are treated explicitly: `quantile.is_gaussian` follows the
  IEEE result of a division by zero (see there) and `end_round` leaves the
  embedding (`none`) when the midpoint is zero, because the stored value would
  be an infinity or a NaN and not a rational.
* `std::vector::operator[]` out of range is undefined behaviour; the embedding
  returns `none` there.
* The host (`namespace core`) is a record of pure queries, `Core`.
* The random engine is the stream of its future draws.
* The only unbounded loop, the `while` of `DerandomPlayer::guess`, takes fuel:
  the number of times its condition may be evaluated.
-/

namespace royer

/-- The host, `namespace core` of the game: the queries `derandom.cpp` calls.
`index` is `core::index(this)`.  The constant `core::NOT_PLAYING` is declared
in a header outside `src/` and is kept as a field. -/
structure Core where
  player_count : Nat
  index : Int
  guess : Int → Int
  chopsticks : Int → Int
  chopstick_count : Int
  valid_guess : Int → Bool
  NOT_PLAYING : Int

/-- The record `DerandomPlayer::quantile`: two `double` accumulators and the
flag `already_played`. -/
structure quantile where
  internal : ℚ
  external : ℚ
  already_played : Bool
deriving DecidableEq

/-- Modelled from the spec: the value-initialised `quantile` that
`std::vector<quantile>(n)` creates; the struct and its member initialisers are
declared in `derandom.h`, which is not under `src/`.  The spec says that a
(re)initialised record has both accumulators at 0 and `has_played = false`. -/
def quantile.fresh : quantile :=
  { internal := 0, external := 0, already_played := false }

/-- Source `quantile::is_gaussian`:
`std::fabs(internal - external)/(internal + external) > 0.125`.
With a zero denominator the IEEE quotient is `+inf` when the numerator is not
zero (the comparison is true) and NaN when it is zero (the comparison is
false). -/
def quantile.is_gaussian (q : quantile) : Bool :=
  if q.internal + q.external = 0 then
    decide (q.internal - q.external ≠ 0)
  else
    decide (|q.internal - q.external| / (q.internal + q.external) > 1 / 8)

/-- The state of a `DerandomPlayer`.  `rng k max` is what the `k`-th future call
`random(max)` returns; `os` holds the lines written to the stream `*_os`. -/
structure DerandomPlayer where
  rng : Nat → Int → Int
  keep : Bool
  name : String
  os : List String
  my_index : Int
  quantiles : List quantile
  gaussian_count : Int
  random_count : Int
  my_hand : Int

/-- Contract of `std::uniform_int_distribution<int>(0, max)`: every draw lies
in `[0, max]`. -/
def RngInRange (rng : Nat → Int → Int) : Prop :=
  ∀ (k : Nat) (max : Int), 0 ≤ max → 0 ≤ rng k max ∧ rng k max ≤ max

/-- The C++ loop `for (int i = 0; i < n; i++) body`, entered at index `i` with
`todo` iterations left; a failing body aborts the loop. -/
def for_loop {σ : Type} (body : σ → Nat → Option σ) : Nat → Nat → σ → Option σ
  | 0, _, s => some s
  | todo + 1, i, s => (body s i).bind (for_loop body todo (i + 1))

namespace DerandomPlayer

/-- Source `DerandomPlayer::random`: one draw of
`std::uniform_int_distribution<int>(0, max)(rng)`; the engine advances. -/
def random (s : DerandomPlayer) (max : Int) : Int × DerandomPlayer :=
  (s.rng 0 max, { s with rng := fun k => s.rng (k + 1) })

/-- The effect of `out() << line`. -/
def out (s : DerandomPlayer) (line : String) : DerandomPlayer :=
  { s with os := s.os ++ [line] }

/-- Body of the loop of `compute_counts` at index `i`. -/
def compute_counts_step (c : Core) (s : DerandomPlayer) (i : Nat) : Option DerandomPlayer :=
  if (i : Int) = s.my_index then some s
  else if c.guess i = c.NOT_PLAYING then some s
  else
    match s.quantiles[i]? with
    | none => none
    | some q =>
      if !q.already_played then some s
      else
        some { s with
          gaussian_count := s.gaussian_count + (if q.is_gaussian then 1 else 0)
          random_count := s.random_count + (if !q.is_gaussian then 1 else 0) }

/-- Source `DerandomPlayer::compute_counts`. -/
def compute_counts (c : Core) (s : DerandomPlayer) : Option DerandomPlayer :=
  for_loop (compute_counts_step c) c.player_count 0
    { s with gaussian_count := 0, random_count := 0 }

/-- Source `DerandomPlayer::begin_game`. -/
def begin_game (c : Core) (s : DerandomPlayer) : DerandomPlayer :=
  let s := { s with my_index := c.index }
  if !s.keep || s.quantiles.length ≠ c.player_count then
    { s with quantiles := List.replicate c.player_count quantile.fresh }
  else s

/-- The four branches of `DerandomPlayer::hand`, after `compute_counts()`. -/
def hand_choice (c : Core) (s : DerandomPlayer) : Int × DerandomPlayer :=
  if s.gaussian_count = 0 ∧ s.random_count = 0 then
    let s := s.out "[derandom]: no info, pure random move.\n"
    let r := s.random (c.chopsticks s.my_index)
    (r.1, { r.2 with my_hand := r.1 })
  else if s.gaussian_count = 0 then
    let s := s.out "[derandom]: Gaussian move\n"
    let h := (c.chopsticks s.my_index).tdiv 2
    (h, { s with my_hand := h })
  else if s.random_count = 0 then
    let s := s.out "[derandom]: Antigaussian move\n"
    let r := s.random 1
    let h := r.1 * c.chopsticks s.my_index
    (h, { r.2 with my_hand := h })
  else
    let s := s.out "[derandom]: Mixed players, pure random move.\n"
    let r := s.random (c.chopsticks s.my_index)
    (r.1, { r.2 with my_hand := r.1 })

/-- Source `DerandomPlayer::hand`: the returned value and the state after. -/
def hand (c : Core) (s : DerandomPlayer) : Option (Int × DerandomPlayer) :=
  (compute_counts c s).map (hand_choice c)

/-- The `while` loop of `DerandomPlayer::guess`, with `fuel` evaluations of its
condition allowed.  The first component lists the values passed to
`core::valid_guess`, in order; the second is the returned guess, `none` when
the fuel ran out before the host accepted a value. -/
def guess_loop (valid_guess : Int → Bool) : Nat → Int → Int → List Int × Option Int
  | 0, _, _ => ([], none)
  | fuel + 1, guess, shift =>
    if valid_guess guess then ([guess], some guess)
    else
      let rest := guess_loop valid_guess fuel (guess + shift) (-1 - shift)
      (guess :: rest.1, rest.2)

/-- The value `(max + min) / 2` at which `DerandomPlayer::guess` starts. -/
def guess_start (c : Core) (s : DerandomPlayer) : Int :=
  let min := s.my_hand
  let max := c.chopstick_count - c.chopsticks s.my_index + s.my_hand
  (max + min).tdiv 2

/-- Source `DerandomPlayer::guess` (it does not change the player). -/
def guess (c : Core) (s : DerandomPlayer) (fuel : Nat) : List Int × Option Int :=
  guess_loop c.valid_guess fuel (guess_start c s) 1

/-- The `dist` of `end_round` for a revealed guess `g`:
`std::fabs(half - guess) / half` with `half = core::chopstick_count() / 2.0`. -/
def dist (chopstick_count : Int) (g : Int) : ℚ :=
  |(chopstick_count : ℚ) / 2 - (g : ℚ)| / ((chopstick_count : ℚ) / 2)

/-- The three assignments `end_round` makes to `quantiles[i]`. -/
def record_guess (chopstick_count : Int) (g : Int) (q : quantile) : quantile :=
  { internal := q.internal + dist chopstick_count g
    external := q.external + (1 - dist chopstick_count g)
    already_played := true }

/-- Body of the loop of `end_round` at index `i`. -/
def end_round_step (c : Core) (s : DerandomPlayer) (i : Nat) : Option DerandomPlayer :=
  if (i : Int) = s.my_index then some s
  else if c.guess i < 0 then some s
  else if (c.chopstick_count : ℚ) / 2 = 0 then none
  else
    match s.quantiles[i]? with
    | none => none
    | some q =>
      some { s with quantiles := s.quantiles.set i (record_guess c.chopstick_count (c.guess i) q) }

/-- Source `DerandomPlayer::end_round`. -/
def end_round (c : Core) (s : DerandomPlayer) : Option DerandomPlayer :=
  for_loop (end_round_step c) c.player_count 0 s

/-- Source `DerandomPlayer::end_game`: a no-op. -/
def end_game (s : DerandomPlayer) : DerandomPlayer := s

end DerandomPlayer

/-- The tally the spec describes for one verdict: the slots other than the
player's own that the host does not report as `NOT_PLAYING`, whose record has
`already_played` set and classifies as `verdict` (true: gaussian). -/
def counted (c : Core) (s : DerandomPlayer) (verdict : Bool) (i : Nat) : Bool :=
  decide ((i : Int) ≠ s.my_index) && decide (c.guess i ≠ c.NOT_PLAYING) &&
    (match s.quantiles[i]? with
     | some q => q.already_played && (q.is_gaussian == verdict)
     | none => false)

/-- A sequence of `end_round` calls, one per host state in `cs` (the host state
at the end of each round), in order. -/
def run_rounds : List Core → DerandomPlayer → Option DerandomPlayer
  | [], s => some s
  | c :: cs, s => (DerandomPlayer.end_round c s).bind (run_rounds cs)

/-- What the rounds `cs` do to the record of an opponent slot `i`: one
`record_guess` per round in which the guess revealed for `i` is not negative
(`run_rounds_slot` proves that `run_rounds` does exactly this). -/
def record_rounds (i : Nat) : List Core → quantile → quantile
  | [], q => q
  | c :: cs, q =>
    record_rounds i cs
      (if 0 ≤ c.guess i then DerandomPlayer.record_guess c.chopstick_count (c.guess i) q else q)

/-- The player states reachable from freshly reset records: any state all of
whose records are fresh, closed under `begin_game`, under `end_round` with a
positive `chopstick_count`, and under `hand`. -/
inductive Reachable : DerandomPlayer → Prop
  | fresh (s : DerandomPlayer) (h : ∀ q ∈ s.quantiles, q = quantile.fresh) : Reachable s
  | begin_game (c : Core) (s : DerandomPlayer) (h : Reachable s) :
      Reachable (DerandomPlayer.begin_game c s)
  | end_round (c : Core) (s t : DerandomPlayer) (h : Reachable s)
      (hcap : 0 < c.chopstick_count) (ht : DerandomPlayer.end_round c s = some t) : Reachable t
  | hand (c : Core) (s t : DerandomPlayer) (v : Int) (h : Reachable s)
      (ht : DerandomPlayer.hand c s = some (v, t)) : Reachable t

/-! ## Concrete hosts and players used to evaluate the definitions -/

/-- A two-player host: the player is slot 0, the opponent at slot 1 has guessed
3, every player holds `own` chopsticks. -/
def demoCore (own : Int) : Core :=
  { player_count := 2, index := 0, guess := fun _ => 3, chopsticks := fun _ => own,
    chopstick_count := 2 * own, valid_guess := fun _ => true, NOT_PLAYING := -2 }

/-- A player at slot 0 whose opponent has the record `q`; every draw of its
engine is the lower end 0 (`top = false`) or the upper end `max`. -/
def demoPlayer (q : quantile) (top : Bool) : DerandomPlayer :=
  { rng := fun _ max => if top then max else 0, keep := true, name := "derandom", os := [],
    my_index := 0, quantiles := [quantile.fresh, q], gaussian_count := 7, random_count := 7,
    my_hand := 0 }

/-- A host with `total` chopsticks on the table, `own` of them the player's,
and the validity rule `valid`. -/
def demoHost (total own : Int) (valid : Int → Bool) : Core :=
  { player_count := 5, index := 0, guess := fun _ => -1, chopsticks := fun _ => own,
    chopstick_count := total, valid_guess := valid, NOT_PLAYING := -2 }

/-- The host of the spec's search example: min_total 3, max_total 9 for a player
with hand 3 of 3 chopsticks; it rejects exactly 6, 7 and 4. -/
def hostRejecting674 : Core :=
  demoHost 9 3 fun g => !(g == 6 || g == 7 || g == 4)

/-- The same table with a host that rejects exactly 6 and 7. -/
def hostRejecting67 : Core :=
  demoHost 9 3 fun g => !(g == 6 || g == 7)

/-- Five players with one chopstick each; the guesses 0, 1, 2 and 3 are already
claimed, so the host accepts exactly 4 and 5. -/
def hostFiveClaimed : Core :=
  demoHost 5 1 fun g => decide (0 ≤ g ∧ g ≤ 5) && !(g == 0 || g == 1 || g == 2 || g == 3)

/-- Five players with one chopstick each and a host that accepts only 0. -/
def hostOnlyZero : Core :=
  demoHost 5 1 fun g => g == 0

/-- A player at slot 0 that has committed the hand `hand`. -/
def demoGuesser (hand : Int) : DerandomPlayer :=
  { rng := fun _ _ => 0, keep := false, name := "derandom", os := [], my_index := 0,
    quantiles := List.replicate 5 quantile.fresh, gaussian_count := 0, random_count := 0,
    my_hand := hand }

/-- A two-player host at the end of a round: 20 chopsticks on the table, every
revealed guess is `g`. -/
def demoRound (g : Int) : Core :=
  { player_count := 2, index := 0, guess := fun _ => g, chopsticks := fun _ => 10,
    chopstick_count := 20, valid_guess := fun _ => true, NOT_PLAYING := -2 }

/-! ## Shared lemmas -/

theorem demoPlayer_rng (q : quantile) (top : Bool) : RngInRange (demoPlayer q top).rng := by
  intro k max h
  cases top <;> simp [demoPlayer, h]


theorem counted_congr (c : Core) (s t : DerandomPlayer) (v : Bool) (i : Nat)
    (hi : t.my_index = s.my_index) (hq : t.quantiles = s.quantiles) :
    counted c t v i = counted c s v i := by
  simp [counted, hi, hq]

theorem compute_counts_step_eq (c : Core) (s : DerandomPlayer) (i : Nat)
    (h : i < s.quantiles.length) :
    DerandomPlayer.compute_counts_step c s i = some { s with
      gaussian_count := s.gaussian_count + (if counted c s true i then 1 else 0)
      random_count := s.random_count + (if counted c s false i then 1 else 0) } := by
  obtain ⟨q, hq⟩ : ∃ q, s.quantiles[i]? = some q := ⟨s.quantiles[i], List.getElem?_eq_getElem h⟩
  unfold DerandomPlayer.compute_counts_step counted
  by_cases h1 : (i : Int) = s.my_index
  · simp [h1]
  · by_cases h2 : c.guess i = c.NOT_PLAYING
    · simp [h1, h2]
    · cases hp : q.already_played <;> cases hg : q.is_gaussian <;> simp [h1, h2, hq, hp, hg]

theorem compute_counts_loop (c : Core) :
    ∀ (todo i : Nat) (s : DerandomPlayer), i + todo ≤ s.quantiles.length →
      for_loop (DerandomPlayer.compute_counts_step c) todo i s = some { s with
        gaussian_count := s.gaussian_count + ((List.range' i todo).countP (counted c s true) : Nat)
        random_count := s.random_count + ((List.range' i todo).countP (counted c s false) : Nat) }
  | 0, i, s, _ => by simp [for_loop]
  | todo + 1, i, s, h => by
    have hi : i < s.quantiles.length := by omega
    rw [for_loop, compute_counts_step_eq c s i hi, Option.some_bind,
      compute_counts_loop c todo (i + 1) _ (by simpa using (by omega : i + 1 + todo ≤ s.quantiles.length))]
    have e : ∀ v, counted c { s with
        gaussian_count := s.gaussian_count + (if counted c s true i then 1 else 0)
        random_count := s.random_count + (if counted c s false i then 1 else 0) } v
        = counted c s v := fun v => funext fun j => counted_congr c _ s v j rfl rfl
    simp only [e, List.range'_succ, List.countP_cons]
    congr 2
    · push_cast; split <;> ring
    · push_cast; split <;> ring

/-- When the vector has one record per player, `compute_counts` returns, changes
only the two tallies, and each tally is the number of counted slots. -/
theorem compute_counts_eq (c : Core) (s : DerandomPlayer)
    (h : s.quantiles.length = c.player_count) :
    DerandomPlayer.compute_counts c s = some { s with
      gaussian_count := ((List.range c.player_count).countP (counted c s true) : Nat)
      random_count := ((List.range c.player_count).countP (counted c s false) : Nat) } := by
  unfold DerandomPlayer.compute_counts
  rw [compute_counts_loop c c.player_count 0 _ (by simp [h])]
  have e : ∀ v, counted c { s with gaussian_count := 0, random_count := 0 } v
      = counted c s v := fun v => funext fun j => counted_congr c _ s v j rfl rfl
  simp [e, List.range_eq_range']

theorem compute_counts_step_frame (c : Core) (s t : DerandomPlayer) (i : Nat)
    (h : DerandomPlayer.compute_counts_step c s i = some t) :
    t = { s with gaussian_count := t.gaussian_count, random_count := t.random_count } := by
  unfold DerandomPlayer.compute_counts_step at h
  split_ifs at h with h1 h2
  · cases h; rfl
  · cases h; rfl
  · split at h
    · cases h
    · split_ifs at h <;> cases h <;> rfl

theorem compute_counts_loop_frame (c : Core) :
    ∀ (todo i : Nat) (s t : DerandomPlayer),
      for_loop (DerandomPlayer.compute_counts_step c) todo i s = some t →
      t = { s with gaussian_count := t.gaussian_count, random_count := t.random_count }
  | 0, _, s, t, h => by
    simp only [for_loop, Option.some.injEq] at h
    cases h; rfl
  | todo + 1, i, s, t, h => by
    rw [for_loop] at h
    cases hb : DerandomPlayer.compute_counts_step c s i with
    | none => simp [hb] at h
    | some u =>
      rw [hb, Option.some_bind] at h
      have e1 := compute_counts_step_frame c s u i hb
      have e2 := compute_counts_loop_frame c todo (i + 1) u t h
      rw [e2, e1]

/-- The function `compute_counts` changes nothing but the two tallies. -/
theorem compute_counts_frame (c : Core) (s t : DerandomPlayer)
    (h : DerandomPlayer.compute_counts c s = some t) :
    t = { s with gaussian_count := t.gaussian_count, random_count := t.random_count } := by
  have e := compute_counts_loop_frame c c.player_count 0 _ t h
  rw [e]

/-! ## The hand policy (`DerandomPlayer::hand`) -/

/-- Claim C1 as stated fails: with the opponent's record (2, 1) the recomputed
tallies are gaussian 1 and erratic 0, the player holds 11 chopsticks, every draw
respects the range contract, and `hand` returns 0, which is not 11 / 2 = 5. -/
theorem C1_counterexample :
    RngInRange (demoPlayer ⟨2, 1, true⟩ false).rng ∧
    (demoCore 11).chopsticks (demoPlayer ⟨2, 1, true⟩ false).my_index = 11 ∧
    (∃ t, DerandomPlayer.compute_counts (demoCore 11) (demoPlayer ⟨2, 1, true⟩ false) = some t ∧
      t.random_count = 0 ∧ 0 < t.gaussian_count) ∧
    (DerandomPlayer.hand (demoCore 11) (demoPlayer ⟨2, 1, true⟩ false)).map Prod.fst = some 0 ∧
    (0 : Int) ≠ 11 / 2 := by
  have e := compute_counts_eq (demoCore 11) (demoPlayer ⟨2, 1, true⟩ false) rfl
  refine ⟨demoPlayer_rng _ _, rfl, ⟨_, e, ?_, ?_⟩, ?_, by decide⟩
  · simp [demoCore, demoPlayer, counted, quantile.fresh, quantile.is_gaussian, List.range_succ]
    norm_num
  · simp [demoCore, demoPlayer, counted, quantile.fresh, quantile.is_gaussian, List.range_succ]
    norm_num
  · rw [DerandomPlayer.hand, e]
    simp [demoCore, demoPlayer, counted, quantile.fresh, quantile.is_gaussian, List.range_succ,
      DerandomPlayer.hand_choice, DerandomPlayer.out, DerandomPlayer.random]
    norm_num

/-- Claim C1, amended: when the recomputed tallies have gaussian_count = 0 and
random_count > 0 (every classified opponent is erratic), `hand` returns, for
every engine, exactly `chopsticks(my_index) / 2` truncated, which is the integer
floor when the count is not negative, and 5 when the count is 11; the value is
stored in `my_hand`. -/
theorem C1_hand_half_when_no_gaussian (c : Core) (s t : DerandomPlayer)
    (hc : DerandomPlayer.compute_counts c s = some t)
    (hg : t.gaussian_count = 0) (hr : 0 < t.random_count) :
    (DerandomPlayer.hand c s).map Prod.fst = some ((c.chopsticks s.my_index).tdiv 2) ∧
      (DerandomPlayer.hand c s).map (fun r => r.2.my_hand)
        = some ((c.chopsticks s.my_index).tdiv 2) ∧
      (0 ≤ c.chopsticks s.my_index →
        (c.chopsticks s.my_index).tdiv 2 = c.chopsticks s.my_index / 2) ∧
      (c.chopsticks s.my_index = 11 → (c.chopsticks s.my_index).tdiv 2 = 5) := by
  have hf := compute_counts_frame c s t hc
  have hi : t.my_index = s.my_index := by rw [hf]
  have hr1 : t.random_count ≠ 0 := by omega
  have hh : DerandomPlayer.hand_choice c t = ((c.chopsticks s.my_index).tdiv 2,
      { t.out "[derandom]: Gaussian move\n" with my_hand := (c.chopsticks s.my_index).tdiv 2 }) := by
    rw [DerandomPlayer.hand_choice]
    simp only [hg, hr1, and_false, if_false, if_true, DerandomPlayer.out, hi]
  refine ⟨?_, ?_, ?_, ?_⟩
  · rw [DerandomPlayer.hand, hc, Option.map_some', Option.map_some', hh]
  · rw [DerandomPlayer.hand, hc, Option.map_some', Option.map_some', hh]
  · intro h0
    exact Int.tdiv_eq_ediv h0 (by decide)
  · intro h11
    rw [h11]; decide

/-- Witness of C1 (amended): an opponent with record (1, 1) is erratic, the
player holds 11 chopsticks and commits 5. -/
theorem C1_hand_half_when_no_gaussian_witness :
    (DerandomPlayer.hand (demoCore 11) (demoPlayer ⟨1, 1, true⟩ true)).map Prod.fst
      = some (Int.tdiv 11 2) := by
  have e := compute_counts_eq (demoCore 11) (demoPlayer ⟨1, 1, true⟩ true) rfl
  exact (C1_hand_half_when_no_gaussian (demoCore 11) (demoPlayer ⟨1, 1, true⟩ true) _ e
    (by simp [demoCore, demoPlayer, counted, quantile.fresh, quantile.is_gaussian, List.range_succ])
    (by simp [demoCore, demoPlayer, counted, quantile.fresh, quantile.is_gaussian, List.range_succ])).1

/-- Claim C2 as stated fails: with the opponent's record (1, 1) the recomputed
tallies are gaussian 0 and erratic 1, the player holds 8 chopsticks, every draw
respects the range contract, and `hand` returns 4, neither 0 nor 8. -/
theorem C2_counterexample :
    RngInRange (demoPlayer ⟨1, 1, true⟩ true).rng ∧
    (demoCore 8).chopsticks (demoPlayer ⟨1, 1, true⟩ true).my_index = 8 ∧
    (∃ t, DerandomPlayer.compute_counts (demoCore 8) (demoPlayer ⟨1, 1, true⟩ true) = some t ∧
      t.gaussian_count = 0 ∧ 0 < t.random_count) ∧
    (DerandomPlayer.hand (demoCore 8) (demoPlayer ⟨1, 1, true⟩ true)).map Prod.fst = some 4 ∧
    (4 : Int) ≠ 0 ∧ (4 : Int) ≠ 8 := by
  have e := compute_counts_eq (demoCore 8) (demoPlayer ⟨1, 1, true⟩ true) rfl
  refine ⟨demoPlayer_rng _ _, rfl, ⟨_, e, ?_, ?_⟩, ?_, by decide, by decide⟩
  · simp [demoCore, demoPlayer, counted, quantile.fresh, quantile.is_gaussian, List.range_succ]
  · simp [demoCore, demoPlayer, counted, quantile.fresh, quantile.is_gaussian, List.range_succ]
  · rw [DerandomPlayer.hand, e]
    simp [demoCore, demoPlayer, counted, quantile.fresh, quantile.is_gaussian, List.range_succ,
      DerandomPlayer.hand_choice, DerandomPlayer.out]
    decide

/-- Claim C2, amended: when the recomputed tallies have random_count = 0 and
gaussian_count > 0 (every classified opponent is gaussian), `hand` returns, for
every engine whose draws respect the range contract, `random(1)` times
`chopsticks(my_index)`: either 0 or the whole count and no other value (0 or 8
when the count is 8); the value is stored in `my_hand`. -/
theorem C2_hand_extreme_when_no_random (c : Core) (s t : DerandomPlayer)
    (hc : DerandomPlayer.compute_counts c s = some t)
    (hr : t.random_count = 0) (hg : 0 < t.gaussian_count) (hrng : RngInRange s.rng) :
    (DerandomPlayer.hand c s).map Prod.fst = some (s.rng 0 1 * c.chopsticks s.my_index) ∧
      (DerandomPlayer.hand c s).map (fun r => r.2.my_hand)
        = some (s.rng 0 1 * c.chopsticks s.my_index) ∧
      (s.rng 0 1 * c.chopsticks s.my_index = 0 ∨
        s.rng 0 1 * c.chopsticks s.my_index = c.chopsticks s.my_index) ∧
      (c.chopsticks s.my_index = 8 →
        s.rng 0 1 * c.chopsticks s.my_index = 0 ∨ s.rng 0 1 * c.chopsticks s.my_index = 8) := by
  have hf := compute_counts_frame c s t hc
  have hi : t.my_index = s.my_index := by rw [hf]
  have hrg : t.rng = s.rng := by rw [hf]
  have hg1 : t.gaussian_count ≠ 0 := by omega
  have hd : s.rng 0 1 = 0 ∨ s.rng 0 1 = 1 := by
    have := hrng 0 1 (by decide)
    omega
  have hx : s.rng 0 1 * c.chopsticks s.my_index = 0 ∨
      s.rng 0 1 * c.chopsticks s.my_index = c.chopsticks s.my_index := by
    rcases hd with h0 | h1
    · left; rw [h0, zero_mul]
    · right; rw [h1, one_mul]
  have hh : DerandomPlayer.hand_choice c t = (s.rng 0 1 * c.chopsticks s.my_index,
      { ((t.out "[derandom]: Antigaussian move\n").random 1).2 with
        my_hand := s.rng 0 1 * c.chopsticks s.my_index }) := by
    rw [DerandomPlayer.hand_choice]
    simp only [hg1, hr, false_and, if_false, if_true, DerandomPlayer.out, DerandomPlayer.random,
      hi, hrg]
  refine ⟨?_, ?_, hx, ?_⟩
  · rw [DerandomPlayer.hand, hc, Option.map_some', Option.map_some', hh]
  · rw [DerandomPlayer.hand, hc, Option.map_some', Option.map_some', hh]
  · intro h8
    rw [h8]
    rw [h8] at hx
    exact hx

/-- Witness of C2 (amended): an opponent with record (2, 1) is gaussian, the
player holds 8 chopsticks, the engine draws the upper end, the hand is 1 * 8. -/
theorem C2_hand_extreme_when_no_random_witness :
    (DerandomPlayer.hand (demoCore 8) (demoPlayer ⟨2, 1, true⟩ true)).map Prod.fst
      = some (1 * 8) := by
  have e := compute_counts_eq (demoCore 8) (demoPlayer ⟨2, 1, true⟩ true) rfl
  exact (C2_hand_extreme_when_no_random (demoCore 8) (demoPlayer ⟨2, 1, true⟩ true) _ e
    (by simp [demoCore, demoPlayer, counted, quantile.fresh, quantile.is_gaussian, List.range_succ]
        norm_num)
    (by simp [demoCore, demoPlayer, counted, quantile.fresh, quantile.is_gaussian, List.range_succ]
        norm_num)
    (demoPlayer_rng _ _)).1

/-- Claim C3: whatever the two tallies are (all four branches of the policy),
for every engine whose draws respect the range contract and every non-negative
`chopsticks(my_index)`, the value chosen lies in `[0, chopsticks(my_index)]` and
is the value stored in `my_hand`; and `hand`, called on a player with one record
per slot, returns such a value. -/
theorem C3_hand_in_range (c : Core) (s : DerandomPlayer)
    (hrng : RngInRange s.rng) (hown : 0 ≤ c.chopsticks s.my_index) :
    (0 ≤ (DerandomPlayer.hand_choice c s).1 ∧
      (DerandomPlayer.hand_choice c s).1 ≤ c.chopsticks s.my_index ∧
      (DerandomPlayer.hand_choice c s).2.my_hand = (DerandomPlayer.hand_choice c s).1) ∧
    (s.quantiles.length = c.player_count →
      ∃ h, (DerandomPlayer.hand c s).map Prod.fst = some h ∧
        (DerandomPlayer.hand c s).map (fun r => r.2.my_hand) = some h ∧
        0 ≤ h ∧ h ≤ c.chopsticks s.my_index) := by
  have key : ∀ t : DerandomPlayer, t.rng = s.rng → t.my_index = s.my_index →
      0 ≤ (DerandomPlayer.hand_choice c t).1 ∧
      (DerandomPlayer.hand_choice c t).1 ≤ c.chopsticks s.my_index ∧
      (DerandomPlayer.hand_choice c t).2.my_hand = (DerandomPlayer.hand_choice c t).1 := by
    intro t hr hi
    have h1 := hrng 0 (c.chopsticks s.my_index) hown
    have h2 := hrng 0 1 (by decide)
    have h3 : (c.chopsticks s.my_index).tdiv 2 = c.chopsticks s.my_index / 2 :=
      Int.tdiv_eq_ediv hown (by decide)
    unfold DerandomPlayer.hand_choice
    split_ifs
    · simp only [DerandomPlayer.out, DerandomPlayer.random, hr, hi]
      exact ⟨h1.1, h1.2, trivial⟩
    · simp only [DerandomPlayer.out, hi, h3]
      refine ⟨by omega, by omega, trivial⟩
    · simp only [DerandomPlayer.out, DerandomPlayer.random, hr, hi]
      have hd : s.rng 0 1 = 0 ∨ s.rng 0 1 = 1 := by omega
      rcases hd with h0 | h0 <;> rw [h0] <;> refine ⟨by omega, by omega, trivial⟩
    · simp only [DerandomPlayer.out, DerandomPlayer.random, hr, hi]
      exact ⟨h1.1, h1.2, trivial⟩
  refine ⟨key s rfl rfl, fun hlen => ?_⟩
  obtain ⟨t, ht⟩ : ∃ t, DerandomPlayer.compute_counts c s = some t :=
    ⟨_, compute_counts_eq c s hlen⟩
  have hf := compute_counts_frame c s t ht
  have k := key t (by rw [hf]) (by rw [hf])
  refine ⟨(DerandomPlayer.hand_choice c t).1, ?_, ?_, k.1, k.2.1⟩
  · rw [DerandomPlayer.hand, ht, Option.map_some', Option.map_some']
  · rw [DerandomPlayer.hand, ht, Option.map_some', Option.map_some', k.2.2]

/-- Witness of C3: no opponent has played (both tallies are 0), the player
holds 10 chopsticks, and the hand lies in [0, 10]. -/
theorem C3_hand_in_range_witness :
    ∃ h, (DerandomPlayer.hand (demoCore 10) (demoPlayer quantile.fresh true)).map Prod.fst = some h ∧
      0 ≤ h ∧ h ≤ 10 := by
  obtain ⟨h, h1, -, h2, h3⟩ := (C3_hand_in_range (demoCore 10) (demoPlayer quantile.fresh true)
    (demoPlayer_rng _ _) (by decide)).2 rfl
  exact ⟨h, h1, h2, h3⟩

/-! ## The guess search (`DerandomPlayer::guess`) -/

theorem guess_loop_sound (v : Int → Bool) :
    ∀ (fuel : Nat) (g sh r : Int), (DerandomPlayer.guess_loop v fuel g sh).2 = some r →
      v r = true ∧ ∃ pre, (DerandomPlayer.guess_loop v fuel g sh).1 = pre ++ [r] ∧
        ∀ x ∈ pre, v x = false
  | 0, g, sh, r, h => by simp [DerandomPlayer.guess_loop] at h
  | fuel + 1, g, sh, r, h => by
    rw [DerandomPlayer.guess_loop] at h ⊢
    by_cases hv : v g = true
    · simp only [hv, if_true, Option.some.injEq] at h ⊢
      subst h
      exact ⟨hv, [], rfl, by simp⟩
    · simp only [hv, if_false] at h ⊢
      obtain ⟨h1, pre, h2, h3⟩ := guess_loop_sound v fuel (g + sh) (-1 - sh) r h
      refine ⟨h1, g :: pre, by simp [h2], ?_⟩
      intro x hx
      rcases List.mem_cons.mp hx with rfl | hx
      · simpa using hv
      · exact h3 x hx

theorem guess_loop_mono (v : Int → Bool) :
    ∀ (fuel : Nat) (g sh r : Int) (k : Nat), (DerandomPlayer.guess_loop v fuel g sh).2 = some r →
      DerandomPlayer.guess_loop v (fuel + k) g sh = DerandomPlayer.guess_loop v fuel g sh
  | 0, g, sh, r, k, h => by simp [DerandomPlayer.guess_loop] at h
  | fuel + 1, g, sh, r, k, h => by
    rw [Nat.add_right_comm, DerandomPlayer.guess_loop, DerandomPlayer.guess_loop]
    rw [DerandomPlayer.guess_loop] at h
    by_cases hv : v g = true
    · simp only [hv, if_true]
    · simp only [hv, if_false] at h ⊢
      rw [guess_loop_mono v fuel (g + sh) (-1 - sh) r k h]

/-- The loop never looks above `start + 1`: when the host rejects every value
up to a bound `b`, a loop in one of its two phases (shift 1 below `b`, or shift
-2 at most at `b`) returns nothing, whatever the fuel. -/
theorem guess_loop_none (v : Int → Bool) (b : Int) (hv : ∀ x, x ≤ b → v x = false) :
    ∀ (fuel : Nat) (g sh : Int), (sh = 1 ∧ g + 1 ≤ b) ∨ (sh = -2 ∧ g ≤ b) →
      (DerandomPlayer.guess_loop v fuel g sh).2 = none
  | 0, g, sh, _ => by simp [DerandomPlayer.guess_loop]
  | fuel + 1, g, sh, h => by
    have hg : v g = false := hv g (by omega)
    rw [DerandomPlayer.guess_loop]
    simp only [hg, Bool.false_eq_true, if_false]
    exact guess_loop_none v b hv fuel (g + sh) (-1 - sh) (by omega)

/-- Claim C4 as stated fails: with min_total 3 and max_total 9 (center 6) and
a host that rejects exactly 6, 7 and 4, the candidates submitted are 6, 7, 5 and
the search returns 5: the third candidate is center - 1, not center - 2, and 4
is never submitted. -/
theorem C4_counterexample :
    (demoGuesser 3).my_hand = 3 ∧
    hostRejecting674.chopstick_count - hostRejecting674.chopsticks (demoGuesser 3).my_index
      + (demoGuesser 3).my_hand = 9 ∧
    DerandomPlayer.guess_start hostRejecting674 (demoGuesser 3) = 6 ∧
    DerandomPlayer.guess hostRejecting674 (demoGuesser 3) 3 = ([6, 7, 5], some 5) ∧
    (DerandomPlayer.guess hostRejecting674 (demoGuesser 3) 3).1 ≠ [6, 7, 4] := by
  decide

/-- Claim C4, amended: the first candidate submitted to the host is the center;
when the host rejects it the second is center + 1; when the host rejects that
too the third is center - 1 (with min_total 3 and max_total 9: 6, 7, 5). -/
theorem C4_first_three_candidates (c : Core) (s : DerandomPlayer) :
    (∀ fuel, (DerandomPlayer.guess c s (fuel + 1)).1.take 1 = [DerandomPlayer.guess_start c s]) ∧
    (c.valid_guess (DerandomPlayer.guess_start c s) = false →
      ∀ fuel, (DerandomPlayer.guess c s (fuel + 2)).1.take 2
        = [DerandomPlayer.guess_start c s, DerandomPlayer.guess_start c s + 1]) ∧
    (c.valid_guess (DerandomPlayer.guess_start c s) = false →
      c.valid_guess (DerandomPlayer.guess_start c s + 1) = false →
      ∀ fuel, (DerandomPlayer.guess c s (fuel + 3)).1.take 3
        = [DerandomPlayer.guess_start c s, DerandomPlayer.guess_start c s + 1,
           DerandomPlayer.guess_start c s - 1]) := by
  refine ⟨fun fuel => ?_, fun h1 fuel => ?_, fun h1 h2 fuel => ?_⟩
  · rw [DerandomPlayer.guess, DerandomPlayer.guess_loop]
    split <;> simp
  · rw [DerandomPlayer.guess, DerandomPlayer.guess_loop, DerandomPlayer.guess_loop]
    simp only [h1, Bool.false_eq_true, if_false]
    split <;> simp
  · rw [DerandomPlayer.guess, DerandomPlayer.guess_loop, DerandomPlayer.guess_loop,
      DerandomPlayer.guess_loop]
    have e : DerandomPlayer.guess_start c s + 1 + (-1 - 1) = DerandomPlayer.guess_start c s - 1 := by
      ring
    simp only [h1, h2, Bool.false_eq_true, if_false, e]
    split <;> simp

/-- Witness of C4 (amended): min_total 3, max_total 9, a host that rejects 6 and
7: the first three candidates are 6, 7, 5. -/
theorem C4_first_three_candidates_witness :
    (DerandomPlayer.guess hostRejecting67 (demoGuesser 3) (0 + 3)).1.take 3
      = [6, 6 + 1, 6 - 1] :=
  (C4_first_three_candidates hostRejecting67 (demoGuesser 3)).2.2
    (by decide) (by decide) 0

/-- Claim C5: when 0 <= my_hand <= chopsticks(my_index) <= chopstick_count, the
search starts at the floor of (min + max) / 2 with min = my_hand and
max = chopstick_count - chopsticks(my_index) + my_hand; that value is the first
one submitted to the host; when the host accepts it, it is returned; and every
returned value is accepted by the host, is the last value submitted, and every
value submitted before it was rejected.  More fuel does not change a returned
value. -/
theorem C5_guess_first_accepted (c : Core) (s : DerandomPlayer)
    (h0 : 0 ≤ s.my_hand) (_h1 : s.my_hand ≤ c.chopsticks s.my_index)
    (h2 : c.chopsticks s.my_index ≤ c.chopstick_count) :
    DerandomPlayer.guess_start c s
      = (s.my_hand + (c.chopstick_count - c.chopsticks s.my_index + s.my_hand)) / 2 ∧
    (∀ fuel, (DerandomPlayer.guess c s (fuel + 1)).1.head? = some (DerandomPlayer.guess_start c s)) ∧
    (c.valid_guess (DerandomPlayer.guess_start c s) = true →
      ∀ fuel, (DerandomPlayer.guess c s (fuel + 1)).2 = some (DerandomPlayer.guess_start c s)) ∧
    (∀ fuel g, (DerandomPlayer.guess c s fuel).2 = some g →
      c.valid_guess g = true ∧
      (∃ pre, (DerandomPlayer.guess c s fuel).1 = pre ++ [g] ∧ ∀ x ∈ pre, c.valid_guess x = false) ∧
      ∀ k, DerandomPlayer.guess c s (fuel + k) = DerandomPlayer.guess c s fuel) := by
  refine ⟨?_, fun fuel => ?_, fun hv fuel => ?_, fun fuel g hg => ?_⟩
  · rw [DerandomPlayer.guess_start]
    show Int.tdiv _ 2 = _
    rw [Int.tdiv_eq_ediv (by omega) (by decide), add_comm]
  · rw [DerandomPlayer.guess, DerandomPlayer.guess_loop]
    split <;> simp
  · rw [DerandomPlayer.guess, DerandomPlayer.guess_loop]
    simp [hv]
  · obtain ⟨a, b⟩ := guess_loop_sound c.valid_guess fuel _ 1 g hg
    exact ⟨a, b, fun k => guess_loop_mono c.valid_guess fuel _ 1 g k hg⟩

/-- Witness of C5: hand 3 of 3 chopsticks, 9 on the table, a host that rejects
6 and 7: the search starts at (3 + 9) / 2 and the properties above hold. -/
theorem C5_guess_first_accepted_witness :
    DerandomPlayer.guess_start hostRejecting67 (demoGuesser 3)
      = (3 + (9 - 3 + 3)) / 2 :=
  (C5_guess_first_accepted hostRejecting67 (demoGuesser 3)
    (by decide) (by decide) (by decide)).1

/-- Claim C6 fails on the code.  Five players hold one chopstick each, the
player commits hand 0 (min_total 0, max_total 4, center 2) and the other four
have claimed 0, 1, 2 and 3, so the host accepts exactly 4 and 5.  The host
accepts 4, which lies in [min_total, max_total], yet the loop returns nothing
whatever the fuel: its candidates are 2, 3, 1, 2, 0, 1, -1, ... and never
exceed center + 1. -/
theorem C6_search_never_returns :
    (demoGuesser 0).my_hand ≤ 4 ∧
    4 ≤ hostFiveClaimed.chopstick_count - hostFiveClaimed.chopsticks (demoGuesser 0).my_index
      + (demoGuesser 0).my_hand ∧
    hostFiveClaimed.valid_guess 4 = true ∧
    (DerandomPlayer.guess hostFiveClaimed (demoGuesser 0) 7).1 = [2, 3, 1, 2, 0, 1, -1] ∧
    ∀ fuel, (DerandomPlayer.guess hostFiveClaimed (demoGuesser 0) fuel).2 = none := by
  refine ⟨by decide, by decide, by decide, by decide, fun fuel => ?_⟩
  refine guess_loop_none _ 3 (fun x hx => ?_) fuel _ 1 (Or.inl ⟨rfl, by decide⟩)
  have hx' : x = 0 ∨ x = 1 ∨ x = 2 ∨ x = 3 ∨ x < 0 := by omega
  rcases hx' with h | h | h | h | h
  · subst h; decide
  · subst h; decide
  · subst h; decide
  · subst h; decide
  · have : ¬ (0 ≤ x ∧ x ≤ 5) := by omega
    simp [hostFiveClaimed, demoHost, this]

/-! ## The tallies (`DerandomPlayer::compute_counts`) and the classifier -/

/-- Claim C7: on a player with one record per slot, whatever values `g0` and
`r0` the tallies held before, `compute_counts` returns with gaussian_count equal
to the number of slots other than `my_index` that the host does not report as
NOT_PLAYING and whose record has `already_played` set and classifies as
gaussian, and random_count equal to the number of such slots whose record does
not classify as gaussian.  The player's own slot is never counted, and a record
with `already_played = false` is never counted, whatever its accumulators. -/
theorem C7_compute_counts_tallies (c : Core) (s : DerandomPlayer)
    (hlen : s.quantiles.length = c.player_count) (g0 r0 : Int) :
    (∃ t, DerandomPlayer.compute_counts c { s with gaussian_count := g0, random_count := r0 } = some t ∧
      t.gaussian_count = ((List.range c.player_count).countP (counted c s true) : Nat) ∧
      t.random_count = ((List.range c.player_count).countP (counted c s false) : Nat)) ∧
    (∀ v i, counted c s v i = true ↔
      ((i : Int) ≠ s.my_index ∧ c.guess i ≠ c.NOT_PLAYING ∧
        ∃ q, s.quantiles[i]? = some q ∧ q.already_played = true ∧ q.is_gaussian = v)) ∧
    (∀ v (i : Nat), (i : Int) = s.my_index → counted c s v i = false) ∧
    (∀ v i q, s.quantiles[i]? = some q → q.already_played = false → counted c s v i = false) := by
  refine ⟨⟨_, compute_counts_eq c _ hlen, ?_, ?_⟩, ?_, ?_, ?_⟩
  · have e : counted c { s with gaussian_count := g0, random_count := r0 } true
        = counted c s true := funext fun j => counted_congr c _ s true j rfl rfl
    simp only [e]
  · have e : counted c { s with gaussian_count := g0, random_count := r0 } false
        = counted c s false := funext fun j => counted_congr c _ s false j rfl rfl
    simp only [e]
  · intro v i
    unfold counted
    cases hq : s.quantiles[i]? with
    | none => simp
    | some q => simp [and_assoc]
  · intro v i hi
    simp [counted, hi]
  · intro v i q hq hp
    simp [counted, hq, hp]

/-- Witness of C7: slot 0 is the player, the opponent at slot 1 has the played
record (2, 1); whatever the tallies held, they become 1 and 0. -/
theorem C7_compute_counts_tallies_witness :
    ∃ t, DerandomPlayer.compute_counts (demoCore 11)
        { demoPlayer ⟨2, 1, true⟩ false with gaussian_count := 40, random_count := -3 } = some t ∧
      t.gaussian_count = 1 ∧ t.random_count = 0 := by
  obtain ⟨t, h, hg, hr⟩ :=
    (C7_compute_counts_tallies (demoCore 11) (demoPlayer ⟨2, 1, true⟩ false) rfl 40 (-3)).1
  refine ⟨t, h, ?_, ?_⟩
  · rw [hg]
    simp [demoCore, demoPlayer, counted, quantile.fresh, quantile.is_gaussian, List.range_succ,
      List.countP_cons, List.countP_nil]
    norm_num
  · rw [hr]
    simp [demoCore, demoPlayer, counted, quantile.fresh, quantile.is_gaussian, List.range_succ,
      List.countP_cons, List.countP_nil]
    norm_num

/-- Claim C8: for a record with internal + external > 0 (exact arithmetic),
`is_gaussian` holds exactly when |internal - external| / (internal + external)
exceeds 0.125, which is the same as 8 * |internal - external| > internal +
external; the record (1, 1) is not gaussian and the record (2, 1) is. -/
theorem C8_is_gaussian_threshold (q : quantile) (h : 0 < q.internal + q.external) :
    (q.is_gaussian = true ↔
      |q.internal - q.external| / (q.internal + q.external) > 0.125) ∧
    (q.is_gaussian = true ↔ 8 * |q.internal - q.external| > q.internal + q.external) ∧
    (∀ b, quantile.is_gaussian ⟨1, 1, b⟩ = false) ∧
    (∀ b, quantile.is_gaussian ⟨2, 1, b⟩ = true) := by
  have e : (0.125 : ℚ) = 1 / 8 := by norm_num
  have h1 : q.is_gaussian = true ↔
      |q.internal - q.external| / (q.internal + q.external) > 1 / 8 := by
    unfold quantile.is_gaussian
    rw [if_neg (ne_of_gt h)]
    exact decide_eq_true_iff
  refine ⟨by rw [e]; exact h1, ?_, ?_, ?_⟩
  · rw [h1, gt_iff_lt, lt_div_iff₀ h]
    constructor <;> intro h2 <;> linarith
  · intro b
    simp [quantile.is_gaussian]
  · intro b
    simp [quantile.is_gaussian]
    norm_num

/-- Witness of C8: the record (2, 1) has a positive sum and is gaussian. -/
theorem C8_is_gaussian_threshold_witness :
    quantile.is_gaussian ⟨2, 1, true⟩ = true ↔ 8 * |(2 : ℚ) - 1| > 2 + 1 :=
  (C8_is_gaussian_threshold ⟨2, 1, true⟩ (by norm_num)).2.1

/-! ## The round update (`DerandomPlayer::end_round`) and `begin_game` -/

/-- One iteration of the loop of `end_round`, when it returns: only `quantiles`
changes, its length is kept, and only the record at `i` can change, by
`record_guess`, when `i` is not the player's slot and the revealed guess is not
negative. -/
theorem end_round_step_spec (c : Core) (s t : DerandomPlayer) (i : Nat)
    (h : DerandomPlayer.end_round_step c s i = some t) :
    t = { s with quantiles := t.quantiles } ∧ t.quantiles.length = s.quantiles.length ∧
    ∀ j, t.quantiles[j]? =
      if j = i ∧ (j : Int) ≠ s.my_index ∧ 0 ≤ c.guess j then
        (s.quantiles[j]?).map (DerandomPlayer.record_guess c.chopstick_count (c.guess j))
      else s.quantiles[j]? := by
  unfold DerandomPlayer.end_round_step at h
  split_ifs at h with h1 h2 h3
  · cases h
    refine ⟨rfl, rfl, fun j => ?_⟩
    rw [if_neg]
    rintro ⟨rfl, hj, -⟩
    exact hj h1
  · cases h
    refine ⟨rfl, rfl, fun j => ?_⟩
    rw [if_neg]
    rintro ⟨rfl, -, hj⟩
    omega
  · split at h
    · cases h
    · rename_i q hq
      cases h
      refine ⟨rfl, by simp, fun j => ?_⟩
      have hlt : i < s.quantiles.length := by
        by_contra hn
        rw [List.getElem?_eq_none (by omega)] at hq
        cases hq
      by_cases hj : j = i
      · subst hj
        rw [if_pos ⟨rfl, h1, by omega⟩, hq]
        simp [hlt]
      · rw [if_neg (fun hh => hj hh.1)]
        simp [List.getElem?_set, Ne.symm hj]

/-- One iteration of the loop of `end_round` returns when the slot has a record
and the table holds chopsticks. -/
theorem end_round_step_some (c : Core) (s : DerandomPlayer) (i : Nat)
    (hc : c.chopstick_count ≠ 0) (hi : i < s.quantiles.length) :
    ∃ t, DerandomPlayer.end_round_step c s i = some t := by
  have hq : s.quantiles[i]? = some s.quantiles[i] := List.getElem?_eq_getElem hi
  have hh : ¬ ((c.chopstick_count : ℚ) / 2 = 0) := by
    have : (c.chopstick_count : ℚ) ≠ 0 := by exact_mod_cast hc
    simpa using this
  unfold DerandomPlayer.end_round_step
  split_ifs
  · exact ⟨_, rfl⟩
  · exact ⟨_, rfl⟩
  · rw [hq]
    exact ⟨_, rfl⟩

/-- The loop of `end_round` from index `i`, when it returns: only `quantiles`
changes, its length is kept, and exactly the records at the slots
`i <= j < i + todo` that are not the player's and whose revealed guess is not
negative are updated, each once, by `record_guess`. -/
theorem end_round_loop_spec (c : Core) :
    ∀ (todo i : Nat) (s t : DerandomPlayer),
      for_loop (DerandomPlayer.end_round_step c) todo i s = some t →
      t = { s with quantiles := t.quantiles } ∧ t.quantiles.length = s.quantiles.length ∧
      ∀ j, t.quantiles[j]? =
        if (i ≤ j ∧ j < i + todo) ∧ (j : Int) ≠ s.my_index ∧ 0 ≤ c.guess j then
          (s.quantiles[j]?).map (DerandomPlayer.record_guess c.chopstick_count (c.guess j))
        else s.quantiles[j]?
  | 0, i, s, t, h => by
    simp only [for_loop, Option.some.injEq] at h
    subst h
    refine ⟨rfl, rfl, fun j => ?_⟩
    rw [if_neg]
    omega
  | todo + 1, i, s, t, h => by
    rw [for_loop] at h
    cases hb : DerandomPlayer.end_round_step c s i with
    | none => simp [hb] at h
    | some u =>
      rw [hb, Option.some_bind] at h
      obtain ⟨a1, a2, a3⟩ := end_round_step_spec c s u i hb
      obtain ⟨b1, b2, b3⟩ := end_round_loop_spec c todo (i + 1) u t h
      have hm : u.my_index = s.my_index := by rw [a1]
      refine ⟨by rw [b1, a1], by rw [b2, a2], fun j => ?_⟩
      rw [hm] at b3
      by_cases hj : j = i
      · subst hj
        have n1 : ¬ ((j + 1 ≤ j ∧ j < j + 1 + todo) ∧ (j : Int) ≠ s.my_index ∧ 0 ≤ c.guess j) := by
          omega
        rw [b3 j, if_neg n1, a3 j]
        by_cases hp : (j : Int) ≠ s.my_index ∧ 0 ≤ c.guess j
        · rw [if_pos ⟨rfl, hp⟩, if_pos ⟨⟨le_refl _, by omega⟩, hp⟩]
        · rw [if_neg (fun hh => hp hh.2), if_neg (fun hh => hp hh.2)]
      · have hu : u.quantiles[j]? = s.quantiles[j]? := by
          rw [a3 j, if_neg (fun hh => hj hh.1)]
        rw [b3 j, hu]
        by_cases hp : (i + 1 ≤ j ∧ j < i + 1 + todo) ∧ (j : Int) ≠ s.my_index ∧ 0 ≤ c.guess j
        · rw [if_pos hp, if_pos ⟨⟨by omega, by omega⟩, hp.2⟩]
        · rw [if_neg hp, if_neg]
          rintro ⟨⟨h1, h2⟩, h3⟩
          exact hp ⟨⟨by omega, by omega⟩, h3⟩

/-- The loop of `end_round` returns when every slot it visits has a record and
the table holds chopsticks. -/
theorem end_round_loop_some (c : Core) (hc : c.chopstick_count ≠ 0) :
    ∀ (todo i : Nat) (s : DerandomPlayer), i + todo ≤ s.quantiles.length →
      ∃ t, for_loop (DerandomPlayer.end_round_step c) todo i s = some t
  | 0, _, s, _ => ⟨s, rfl⟩
  | todo + 1, i, s, h => by
    obtain ⟨u, hu⟩ := end_round_step_some c s i hc (by omega)
    have hl := (end_round_step_spec c s u i hu).2.1
    obtain ⟨t, ht⟩ := end_round_loop_some c hc todo (i + 1) u (by omega)
    exact ⟨t, by rw [for_loop, hu, Option.some_bind, ht]⟩

/-- Claim C9: when the table holds chopstick_count > 0 chopsticks and the player
has one record per slot, `end_round` returns, and for every slot `i` other than
`my_index` whose revealed guess `g` is not negative the record after the call
is (internal + d, external + (1 - d), true) with
d = |chopstick_count / 2 - g| / (chopstick_count / 2) in exact arithmetic.
With 20 chopsticks, g = 10 gives d = 0 (internal + 0, external + 1) and g = 0
gives d = 1 (internal + 1, external + 0). -/
theorem C9_end_round_update (c : Core) (s : DerandomPlayer) (i : Nat) (q : quantile)
    (hcap : 0 < c.chopstick_count) (hlen : s.quantiles.length = c.player_count)
    (hne : (i : Int) ≠ s.my_index) (hg : 0 ≤ c.guess i) (hq : s.quantiles[i]? = some q) :
    (∃ t, DerandomPlayer.end_round c s = some t ∧
      t.quantiles[i]? = some
        { internal := q.internal + DerandomPlayer.dist c.chopstick_count (c.guess i)
          external := q.external + (1 - DerandomPlayer.dist c.chopstick_count (c.guess i))
          already_played := true }) ∧
    DerandomPlayer.dist c.chopstick_count (c.guess i)
      = |(c.chopstick_count : ℚ) / 2 - (c.guess i : ℚ)| / ((c.chopstick_count : ℚ) / 2) ∧
    DerandomPlayer.dist 20 10 = 0 ∧ DerandomPlayer.dist 20 0 = 1 := by
  refine ⟨?_, rfl, by norm_num [DerandomPlayer.dist], by norm_num [DerandomPlayer.dist]⟩
  obtain ⟨t, ht⟩ := end_round_loop_some c (by omega) c.player_count 0 s (by omega)
  have hlt : i < c.player_count := by
    by_contra hn
    rw [List.getElem?_eq_none (by omega)] at hq
    cases hq
  refine ⟨t, ht, ?_⟩
  rw [(end_round_loop_spec c c.player_count 0 s t ht).2.2 i,
    if_pos ⟨⟨Nat.zero_le _, by omega⟩, hne, hg⟩, hq]
  rfl

/-- Witness of C9: 20 chopsticks, the opponent at slot 1 has a fresh record and
reveals the guess 10: its record becomes (0 + 0, 0 + 1, true). -/
theorem C9_end_round_update_witness :
    ∃ t, DerandomPlayer.end_round (demoRound 10) (demoPlayer quantile.fresh true) = some t ∧
      t.quantiles[1]? = some { internal := 0, external := 1, already_played := true } := by
  obtain ⟨⟨t, h1, h2⟩, -, h3, -⟩ := C9_end_round_update (demoRound 10)
    (demoPlayer quantile.fresh true) 1 quantile.fresh (by decide) rfl (by decide) (by decide) rfl
  refine ⟨t, h1, ?_⟩
  rw [h2]
  have e : DerandomPlayer.dist (demoRound 10).chopstick_count ((demoRound 10).guess (1 : Nat))
      = 0 := h3
  rw [e]
  simp [quantile.fresh]

/-- Claim C10: when `keep` is set and the vector has exactly `player_count`
records, `begin_game` leaves the vector (every record's internal, external and
already_played) as it was and changes nothing but `my_index`, which becomes
`core::index(this)`. -/
theorem C10_begin_game_keeps_records (c : Core) (s : DerandomPlayer)
    (hk : s.keep = true) (hlen : s.quantiles.length = c.player_count) :
    (DerandomPlayer.begin_game c s).quantiles = s.quantiles ∧
    (∀ j : Nat, (DerandomPlayer.begin_game c s).quantiles[j]? = s.quantiles[j]?) ∧
    DerandomPlayer.begin_game c s = { s with my_index := c.index } ∧
    (DerandomPlayer.begin_game c s).my_index = c.index := by
  have e : DerandomPlayer.begin_game c s = { s with my_index := c.index } := by
    unfold DerandomPlayer.begin_game
    simp [hk, hlen]
  rw [e]
  exact ⟨rfl, fun _ => rfl, rfl, rfl⟩

/-- Witness of C10: a keeping player with two records (one of them played) in a
two-player game keeps both records and takes the slot the host reports. -/
theorem C10_begin_game_keeps_records_witness :
    (DerandomPlayer.begin_game (demoCore 11) (demoPlayer ⟨2, 1, true⟩ true)).quantiles
      = [quantile.fresh, ⟨2, 1, true⟩] :=
  (C10_begin_game_keeps_records (demoCore 11) (demoPlayer ⟨2, 1, true⟩ true) rfl rfl).1

/-- Claim C11: when `keep` is false, or the vector does not have exactly
`player_count` records, `begin_game` replaces the vector by `player_count`
fresh records, each (0, 0, false); and after every `begin_game`, whatever the
state before, the vector has exactly `player_count` records. -/
theorem C11_begin_game_resets_records (c : Core) (s : DerandomPlayer)
    (h : s.keep = false ∨ s.quantiles.length ≠ c.player_count) :
    (DerandomPlayer.begin_game c s).quantiles = List.replicate c.player_count quantile.fresh ∧
    (∀ j : Nat, j < c.player_count →
      (DerandomPlayer.begin_game c s).quantiles[j]?
        = some { internal := 0, external := 0, already_played := false }) ∧
    (∀ j : Nat, c.player_count ≤ j → (DerandomPlayer.begin_game c s).quantiles[j]? = none) ∧
    (∀ u : DerandomPlayer, (DerandomPlayer.begin_game c u).quantiles.length = c.player_count) := by
  have e : (DerandomPlayer.begin_game c s).quantiles
      = List.replicate c.player_count quantile.fresh := by
    unfold DerandomPlayer.begin_game
    rcases h with h | h
    · simp [h]
    · simp [h]
  refine ⟨e, fun j hj => ?_, fun j hj => ?_, fun u => ?_⟩
  · rw [e, List.getElem?_eq_getElem (by simpa using hj)]
    simp [quantile.fresh]
  · rw [e, List.getElem?_eq_none (by simpa using hj)]
  · unfold DerandomPlayer.begin_game
    by_cases hu : u.keep = true ∧ u.quantiles.length = c.player_count
    · simp [hu.1, hu.2]
    · have hu' : (!u.keep || decide (u.quantiles.length ≠ c.player_count)) = true := by
        by_cases hk : u.keep = true
        · have : u.quantiles.length ≠ c.player_count := fun hh => hu ⟨hk, hh⟩
          simp [this]
        · simp [hk]
      simp only [hu', if_true, List.length_replicate]

/-- Witness of C11: a keeping player with two records enters a five-player
game; its vector becomes five fresh records. -/
theorem C11_begin_game_resets_records_witness :
    (DerandomPlayer.begin_game hostFiveClaimed (demoPlayer ⟨2, 1, true⟩ true)).quantiles
      = List.replicate 5 quantile.fresh :=
  (C11_begin_game_resets_records hostFiveClaimed (demoPlayer ⟨2, 1, true⟩ true)
    (Or.inr (by decide))).1

/-! ## The deviation `dist` and the accumulators -/

/-- Claim C15: for chopstick_count > 0 and a revealed guess g with
0 <= g <= chopstick_count, the `dist` of `end_round` (exact arithmetic) lies in
[0, 1]; it is 0 exactly when g is the midpoint chopstick_count / 2, and 1
exactly when g = 0 or g = chopstick_count. -/
theorem C15_dist_in_unit_interval (total g : Int) (ht : 0 < total) (h0 : 0 ≤ g)
    (h1 : g ≤ total) :
    0 ≤ DerandomPlayer.dist total g ∧ DerandomPlayer.dist total g ≤ 1 ∧
    (DerandomPlayer.dist total g = 0 ↔ (g : ℚ) = (total : ℚ) / 2) ∧
    (DerandomPlayer.dist total g = 0 ↔ 2 * g = total) ∧
    (DerandomPlayer.dist total g = 1 ↔ g = 0 ∨ g = total) := by
  have hh : (0 : ℚ) < (total : ℚ) / 2 := by
    have : (0 : ℚ) < (total : ℚ) := by exact_mod_cast ht
    linarith
  have g0 : (0 : ℚ) ≤ (g : ℚ) := by exact_mod_cast h0
  have g1 : (g : ℚ) ≤ (total : ℚ) := by exact_mod_cast h1
  have hz : DerandomPlayer.dist total g = 0 ↔ (g : ℚ) = (total : ℚ) / 2 := by
    unfold DerandomPlayer.dist
    rw [div_eq_zero_iff, abs_eq_zero, sub_eq_zero]
    constructor
    · rintro (h | h)
      · exact h.symm
      · exact absurd h (ne_of_gt hh)
    · intro h
      exact Or.inl h.symm
  refine ⟨?_, ?_, hz, ?_, ?_⟩
  · exact div_nonneg (abs_nonneg _) hh.le
  · unfold DerandomPlayer.dist
    rw [div_le_one hh, abs_le]
    constructor <;> linarith
  · rw [hz]
    constructor
    · intro h
      have : ((2 * g : Int) : ℚ) = (total : ℚ) := by push_cast; linarith
      exact_mod_cast this
    · intro h
      have : ((2 * g : Int) : ℚ) = (total : ℚ) := by exact_mod_cast h
      push_cast at this
      linarith
  · unfold DerandomPlayer.dist
    rw [div_eq_one_iff_eq (ne_of_gt hh), abs_eq hh.le]
    constructor
    · rintro (h | h)
      · left
        have : (g : ℚ) = 0 := by linarith
        exact_mod_cast this
      · right
        have : (g : ℚ) = (total : ℚ) := by linarith
        exact_mod_cast this
    · rintro (h | h)
      · left; rw [h]; simp
      · right; rw [h]; ring

/-- Witness of C15: 20 chopsticks and the guess 10, the midpoint. -/
theorem C15_dist_in_unit_interval_witness :
    DerandomPlayer.dist 20 10 = 0 ↔ 2 * (10 : Int) = 20 :=
  (C15_dist_in_unit_interval 20 10 (by decide) (by decide) (by decide)).2.2.2.1

theorem dist_nonneg (total g : Int) (ht : 0 < total) : 0 ≤ DerandomPlayer.dist total g := by
  have hh : (0 : ℚ) < (total : ℚ) := by exact_mod_cast ht
  exact div_nonneg (abs_nonneg _) (by linarith)

theorem dist_le_one (total g : Int) (ht : 0 < total) (h0 : 0 ≤ g) (h1 : g ≤ total) :
    DerandomPlayer.dist total g ≤ 1 := by
  have hh : (0 : ℚ) < (total : ℚ) := by exact_mod_cast ht
  have g0 : (0 : ℚ) ≤ (g : ℚ) := by exact_mod_cast h0
  have g1 : (g : ℚ) ≤ (total : ℚ) := by exact_mod_cast h1
  unfold DerandomPlayer.dist
  rw [div_le_one (by linarith), abs_le]
  constructor <;> linarith

/-- The function `end_round` returns when the table holds chopsticks and every
slot of the game has a record. -/
theorem end_round_some (c : Core) (s : DerandomPlayer) (hc : c.chopstick_count ≠ 0)
    (hlen : c.player_count ≤ s.quantiles.length) :
    ∃ t, DerandomPlayer.end_round c s = some t :=
  end_round_loop_some c hc c.player_count 0 s (by omega)

/-- The effect of a returning `end_round` on the record of slot `j`. -/
theorem end_round_slot (c : Core) (s t : DerandomPlayer)
    (h : DerandomPlayer.end_round c s = some t) (j : Nat) :
    t.quantiles[j]? =
      if j < c.player_count ∧ (j : Int) ≠ s.my_index ∧ 0 ≤ c.guess j then
        (s.quantiles[j]?).map (DerandomPlayer.record_guess c.chopstick_count (c.guess j))
      else s.quantiles[j]? := by
  rw [(end_round_loop_spec c c.player_count 0 s t h).2.2 j]
  by_cases hc : j < c.player_count ∧ (j : Int) ≠ s.my_index ∧ 0 ≤ c.guess j
  · rw [if_pos hc, if_pos ⟨⟨Nat.zero_le _, by omega⟩, hc.2⟩]
  · rw [if_neg hc, if_neg]
    rintro ⟨⟨-, h2⟩, h3⟩
    exact hc ⟨by omega, h3⟩

/-- Claim C12 as stated fails: with 20 chopsticks on the table and a revealed
guess of 30, `dist` is 2 and `end_round` adds 1 - 2 = -1 to `external`: the
fresh record of slot 1 goes from external 0 to external -1. -/
theorem C12_counterexample :
    0 < (demoRound 30).chopstick_count ∧
    (demoPlayer quantile.fresh true).quantiles[1]? = some ⟨0, 0, false⟩ ∧
    (∃ t, DerandomPlayer.end_round (demoRound 30) (demoPlayer quantile.fresh true) = some t ∧
      t.quantiles[1]? = some ⟨2, -1, true⟩) ∧
    (-1 : ℚ) < 0 := by
  refine ⟨by decide, rfl, ?_, by norm_num⟩
  obtain ⟨t, ht⟩ := end_round_some (demoRound 30) (demoPlayer quantile.fresh true)
    (by decide) (by decide)
  refine ⟨t, ht, ?_⟩
  rw [end_round_slot _ _ _ ht 1]
  simp [demoRound, demoPlayer, DerandomPlayer.record_guess, DerandomPlayer.dist, quantile.fresh]
  norm_num

/-- Claim C12, amended: for an `end_round` call with chopstick_count > 0 on a
player with one record per slot, the call returns and every record's `internal`
after the call is at least its value before; its `external` is at least its
value before when the guess revealed for its slot is at most chopstick_count.
Both accumulators are 0 in a fresh record. -/
theorem C12_accumulators_non_decreasing (c : Core) (s : DerandomPlayer)
    (hcap : 0 < c.chopstick_count) (hlen : s.quantiles.length = c.player_count) :
    (∃ t, DerandomPlayer.end_round c s = some t ∧
      ∀ (j : Nat) (q : quantile), s.quantiles[j]? = some q →
        ∃ q', t.quantiles[j]? = some q' ∧ q.internal ≤ q'.internal ∧
          (c.guess j ≤ c.chopstick_count → q.external ≤ q'.external)) ∧
    quantile.fresh.internal = 0 ∧ quantile.fresh.external = 0 := by
  refine ⟨?_, rfl, rfl⟩
  obtain ⟨t, ht⟩ := end_round_some c s (by omega) (by omega)
  refine ⟨t, ht, fun j q hq => ?_⟩
  rw [end_round_slot c s t ht j, hq]
  by_cases hc : j < c.player_count ∧ (j : Int) ≠ s.my_index ∧ 0 ≤ c.guess j
  · rw [if_pos hc]
    refine ⟨_, rfl, ?_, fun hg => ?_⟩
    · have := dist_nonneg c.chopstick_count (c.guess j) hcap
      simp only [DerandomPlayer.record_guess]
      linarith
    · have := dist_le_one c.chopstick_count (c.guess j) hcap hc.2.2 hg
      simp only [DerandomPlayer.record_guess]
      linarith
  · rw [if_neg hc]
    exact ⟨q, rfl, le_refl _, fun _ => le_refl _⟩

/-- Witness of C12 (amended): 20 chopsticks, revealed guess 10, two records. -/
theorem C12_accumulators_non_decreasing_witness :
    ∃ t, DerandomPlayer.end_round (demoRound 10) (demoPlayer ⟨2, 1, true⟩ true) = some t ∧
      ∀ (j : Nat) (q : quantile), (demoPlayer ⟨2, 1, true⟩ true).quantiles[j]? = some q →
        ∃ q', t.quantiles[j]? = some q' ∧ q.internal ≤ q'.internal ∧
          ((demoRound 10).guess j ≤ (demoRound 10).chopstick_count → q.external ≤ q'.external) :=
  (C12_accumulators_non_decreasing (demoRound 10) (demoPlayer ⟨2, 1, true⟩ true)
    (by decide) rfl).1

/-- Claim C16: a returning `end_round` keeps the length of the vector, leaves
the record at `my_index` as it was and leaves the record of every slot whose
revealed guess is negative as it was (all three fields); it changes no other
member of the player.  It returns whenever the table holds chopsticks and the
player has one record per slot. -/
theorem C16_end_round_frame (c : Core) (s : DerandomPlayer) :
    (∀ t, DerandomPlayer.end_round c s = some t →
      t.quantiles.length = s.quantiles.length ∧
      (∀ j : Nat, (j : Int) = s.my_index → t.quantiles[j]? = s.quantiles[j]?) ∧
      (∀ j : Nat, c.guess j < 0 → t.quantiles[j]? = s.quantiles[j]?) ∧
      t = { s with quantiles := t.quantiles }) ∧
    (c.chopstick_count ≠ 0 → s.quantiles.length = c.player_count →
      ∃ t, DerandomPlayer.end_round c s = some t) := by
  refine ⟨fun t ht => ⟨?_, fun j hj => ?_, fun j hj => ?_, ?_⟩, fun hc hlen => ?_⟩
  · exact (end_round_loop_spec c c.player_count 0 s t ht).2.1
  · rw [end_round_slot c s t ht j, if_neg]
    rintro ⟨-, h, -⟩
    exact h hj
  · rw [end_round_slot c s t ht j, if_neg]
    rintro ⟨-, -, h⟩
    omega
  · exact (end_round_loop_spec c c.player_count 0 s t ht).1
  · exact end_round_some c s hc (by omega)

/-- Witness of C16: 20 chopsticks, every revealed guess is -1: the call returns
and both records are as before. -/
theorem C16_end_round_frame_witness :
    ∃ t, DerandomPlayer.end_round (demoRound (-1)) (demoPlayer ⟨2, 1, true⟩ true) = some t ∧
      t.quantiles[1]? = some ⟨2, 1, true⟩ ∧ t.quantiles[0]? = some quantile.fresh := by
  obtain ⟨h1, h2⟩ := C16_end_round_frame (demoRound (-1)) (demoPlayer ⟨2, 1, true⟩ true)
  obtain ⟨t, ht⟩ := h2 (by decide) rfl
  obtain ⟨-, a, b, -⟩ := h1 t ht
  exact ⟨t, ht, by rw [b 1 (by decide)]; rfl, by rw [a 0 (by decide)]; rfl⟩

/-! ## The guess search after the third candidate -/

/-- No value the loop submits exceeds the bound `b` when the loop is in one of
its two phases below it (shift 1 with guess < b, or shift -2 with guess <= b):
from the start value `g0` with shift 1 nothing above `g0 + 1` is submitted. -/
theorem guess_loop_le (v : Int → Bool) (b : Int) :
    ∀ (fuel : Nat) (g sh : Int), (sh = 1 ∧ g + 1 ≤ b) ∨ (sh = -2 ∧ g ≤ b) →
      ∀ x ∈ (DerandomPlayer.guess_loop v fuel g sh).1, x ≤ b
  | 0, g, sh, _ => by simp [DerandomPlayer.guess_loop]
  | fuel + 1, g, sh, h => by
    intro x hx
    rw [DerandomPlayer.guess_loop] at hx
    split_ifs at hx
    · simp only [List.mem_singleton] at hx
      omega
    · rcases List.mem_cons.mp hx with hx | hx
      · omega
      · exact guess_loop_le v b fuel (g + sh) (-1 - sh) (by omega) x hx

/-- Claim C14 fails on the code.  Five players hold one chopstick each, the
player commits hand 0 (central value 2) and the host accepts exactly 4 and 5.
The comment of `guess` promises the order 2, 3, 1, 4, 0, ...; the code submits
2, 3, 1, 2, 0: the third candidate after the central value is the central value
again, not central + 2, and the value 4 = central + 2, which the host accepts,
is never submitted, whatever the fuel. -/
theorem C14_third_offset_candidate_is_center :
    DerandomPlayer.guess_start hostFiveClaimed (demoGuesser 0) = 2 ∧
    (DerandomPlayer.guess hostFiveClaimed (demoGuesser 0) 5).1 = [2, 3, 1, 2, 0] ∧
    (DerandomPlayer.guess hostFiveClaimed (demoGuesser 0) 5).1[3]? ≠ some (2 + 2) ∧
    hostFiveClaimed.valid_guess (2 + 2) = true ∧
    ∀ fuel, (2 + 2 : Int) ∉ (DerandomPlayer.guess hostFiveClaimed (demoGuesser 0) fuel).1 := by
  refine ⟨by decide, by decide, by decide, by decide, fun fuel hmem => ?_⟩
  have h := guess_loop_le hostFiveClaimed.valid_guess 3 fuel
    (DerandomPlayer.guess_start hostFiveClaimed (demoGuesser 0)) 1
    (Or.inl ⟨rfl, by decide⟩) (2 + 2) hmem
  exact absurd h (by decide)

/-- Claim C17 as stated fails: with center 2 and a host that accepts only 0,
the candidates are 2, 3, 1, 2, 0 and the search returns 0: the fifth candidate
is center - 2, outside {center - 1, center, center + 1}, the sequence does not
repeat with period 3, and the search returns although the host accepts none of
1, 2, 3. -/
theorem C17_counterexample :
    DerandomPlayer.guess_start hostOnlyZero (demoGuesser 0) = 2 ∧
    DerandomPlayer.guess hostOnlyZero (demoGuesser 0) 5 = ([2, 3, 1, 2, 0], some 0) ∧
    (0 : Int) ≠ 2 - 1 ∧ (0 : Int) ≠ 2 ∧ (0 : Int) ≠ 2 + 1 ∧
    hostOnlyZero.valid_guess (2 - 1) = false ∧ hostOnlyZero.valid_guess 2 = false ∧
    hostOnlyZero.valid_guess (2 + 1) = false := by
  decide

/-- Claim C17, amended: the first three candidates the loop submits lie in
{center - 1, center, center + 1}, and when the host accepts at least one of these
three values the search returns, after at most three submissions, one of them
that the host accepts. -/
theorem C17_returns_within_three (c : Core) (s : DerandomPlayer) :
    (∀ fuel, ∀ x ∈ (DerandomPlayer.guess c s fuel).1.take 3,
      x = DerandomPlayer.guess_start c s - 1 ∨ x = DerandomPlayer.guess_start c s ∨
        x = DerandomPlayer.guess_start c s + 1) ∧
    (c.valid_guess (DerandomPlayer.guess_start c s - 1) = true ∨
      c.valid_guess (DerandomPlayer.guess_start c s) = true ∨
      c.valid_guess (DerandomPlayer.guess_start c s + 1) = true →
      ∃ g, (g = DerandomPlayer.guess_start c s - 1 ∨ g = DerandomPlayer.guess_start c s ∨
          g = DerandomPlayer.guess_start c s + 1) ∧
        c.valid_guess g = true ∧
        ∀ k, (DerandomPlayer.guess c s (3 + k)).2 = some g) := by
  have e : DerandomPlayer.guess_start c s + 1 + (-1 - 1) = DerandomPlayer.guess_start c s - 1 := by
    ring
  constructor
  · intro fuel x hx
    rcases fuel with _ | _ | _ | n
    · simp [DerandomPlayer.guess, DerandomPlayer.guess_loop] at hx
    all_goals
      simp only [DerandomPlayer.guess, DerandomPlayer.guess_loop, e] at hx
      split_ifs at hx <;> simp at hx <;> omega
  · intro h
    have key : ∀ g, (DerandomPlayer.guess c s 3).2 = some g →
        ∀ k, (DerandomPlayer.guess c s (3 + k)).2 = some g := by
      intro g hg k
      rw [DerandomPlayer.guess, guess_loop_mono c.valid_guess 3 _ 1 g k hg]
      exact hg
    by_cases h0 : c.valid_guess (DerandomPlayer.guess_start c s) = true
    · refine ⟨_, Or.inr (Or.inl rfl), h0, key _ ?_⟩
      simp [DerandomPlayer.guess, DerandomPlayer.guess_loop, h0]
    · by_cases h1 : c.valid_guess (DerandomPlayer.guess_start c s + 1) = true
      · refine ⟨_, Or.inr (Or.inr rfl), h1, key _ ?_⟩
        simp [DerandomPlayer.guess, DerandomPlayer.guess_loop, h0, h1]
      · have h2 : c.valid_guess (DerandomPlayer.guess_start c s - 1) = true := by
          rcases h with h | h | h
          · exact h
          · exact absurd h h0
          · exact absurd h h1
        have h0' : c.valid_guess (DerandomPlayer.guess_start c s) = false := by simpa using h0
        have h1' : c.valid_guess (DerandomPlayer.guess_start c s + 1) = false := by simpa using h1
        refine ⟨_, Or.inl rfl, h2, key _ ?_⟩
        simp only [DerandomPlayer.guess, DerandomPlayer.guess_loop, h0', h1', e, h2,
          Bool.false_eq_true, if_false, if_true]

/-- Witness of C17 (amended): center 6 and a host that rejects 6 and 7 and
accepts 5: the search returns 5. -/
theorem C17_returns_within_three_witness :
    ∃ g, (g = 6 - 1 ∨ g = 6 ∨ g = 6 + 1) ∧ hostRejecting67.valid_guess g = true ∧
      ∀ k, (DerandomPlayer.guess hostRejecting67 (demoGuesser 3) (3 + k)).2 = some g :=
  (C17_returns_within_three hostRejecting67 (demoGuesser 3)).2 (Or.inl (by decide))

/-! ## Sequences of rounds -/

/-- A returning sequence of `end_round` calls does to the record of an opponent
slot `j` what `record_rounds` says. -/
theorem run_rounds_slot (j : Nat) :
    ∀ (cs : List Core) (s t : DerandomPlayer), run_rounds cs s = some t →
      (j : Int) ≠ s.my_index → (∀ c ∈ cs, j < c.player_count) →
      t.quantiles[j]? = (s.quantiles[j]?).map (record_rounds j cs)
  | [], s, t, h, _, _ => by
    simp only [run_rounds, Option.some.injEq] at h
    subst h
    cases s.quantiles[j]? <;> simp [record_rounds]
  | c :: cs, s, t, h, hne, hj => by
    rw [run_rounds] at h
    cases hu : DerandomPlayer.end_round c s with
    | none => simp [hu] at h
    | some u =>
      rw [hu, Option.some_bind] at h
      have hm : u.my_index = s.my_index := by
        rw [(end_round_loop_spec c c.player_count 0 s u hu).1]
      have ih := run_rounds_slot j cs u t h (by rw [hm]; exact hne)
        (fun d hd => hj d (List.mem_cons_of_mem _ hd))
      rw [ih, end_round_slot c s u hu j]
      have hjc := hj c (List.mem_cons_self _ _)
      by_cases hg : 0 ≤ c.guess j
      · rw [if_pos ⟨hjc, hne, hg⟩]
        cases s.quantiles[j]? <;> simp [record_rounds, hg]
      · rw [if_neg (fun hh => hg hh.2.2)]
        cases s.quantiles[j]? <;> simp [record_rounds, hg]

/-- A sequence of `end_round` calls returns when every table holds chopsticks
and every game has at most as many slots as the player has records. -/
theorem run_rounds_some :
    ∀ (cs : List Core) (s : DerandomPlayer),
      (∀ c ∈ cs, c.chopstick_count ≠ 0 ∧ c.player_count ≤ s.quantiles.length) →
      ∃ t, run_rounds cs s = some t
  | [], s, _ => ⟨s, rfl⟩
  | c :: cs, s, h => by
    obtain ⟨h1, h2⟩ := h c (List.mem_cons_self _ _)
    obtain ⟨u, hu⟩ := end_round_some c s h1 h2
    have hl := (end_round_loop_spec c c.player_count 0 s u hu).2.1
    obtain ⟨t, ht⟩ := run_rounds_some cs u (fun d hd => by
      rw [hl]
      exact h d (List.mem_cons_of_mem _ hd))
    exact ⟨t, by rw [run_rounds, hu, Option.some_bind, ht]⟩

/-- Each recorded guess adds exactly 1 to internal + external and sets
`already_played`. -/
theorem record_rounds_sum (j : Nat) :
    ∀ (cs : List Core) (q : quantile),
      (record_rounds j cs q).internal + (record_rounds j cs q).external
        = q.internal + q.external + (cs.countP (fun c => decide (0 ≤ c.guess j)) : Nat) ∧
      ((record_rounds j cs q).already_played = true ↔
        q.already_played = true ∨ 0 < cs.countP (fun c => decide (0 ≤ c.guess j)))
  | [], q => by simp [record_rounds]
  | c :: cs, q => by
    rw [record_rounds]
    obtain ⟨h1, h2⟩ := record_rounds_sum j cs
      (if 0 ≤ c.guess j then DerandomPlayer.record_guess c.chopstick_count (c.guess j) q else q)
    rw [h1, h2, List.countP_cons]
    by_cases hg : 0 ≤ c.guess j
    · simp only [hg, if_true, decide_True, DerandomPlayer.record_guess]
      refine ⟨by push_cast; ring, ?_⟩
      simp
    · simp only [hg, if_false, decide_False]
      refine ⟨by simp, by simp⟩

theorem dist_extreme (total g : Int) (ht : 0 < total) (hg : g = 0 ∨ g = total) :
    DerandomPlayer.dist total g = 1 := by
  have hh : (0 : ℚ) < (total : ℚ) / 2 := by
    have : (0 : ℚ) < (total : ℚ) := by exact_mod_cast ht
    linarith
  unfold DerandomPlayer.dist
  rw [div_eq_one_iff_eq (ne_of_gt hh), abs_eq hh.le]
  rcases hg with h | h
  · left; rw [h]; simp
  · right; rw [h]; ring

theorem dist_midpoint (total g : Int) (hg : 2 * g = total) :
    DerandomPlayer.dist total g = 0 := by
  have e : (g : ℚ) = (total : ℚ) / 2 := by
    have : ((2 * g : Int) : ℚ) = (total : ℚ) := by exact_mod_cast hg
    push_cast at this
    linarith
  unfold DerandomPlayer.dist
  rw [e, sub_self, abs_zero, zero_div]

/-- Rounds in which the guess revealed for the slot is, whenever it is not
negative, 0 or the whole table add 1 to `internal` per recorded guess and
nothing to `external`. -/
theorem record_rounds_extreme (j : Nat) :
    ∀ (cs : List Core) (q : quantile),
      (∀ c ∈ cs, 0 < c.chopstick_count ∧
        (c.guess j < 0 ∨ c.guess j = 0 ∨ c.guess j = c.chopstick_count)) →
      (record_rounds j cs q).internal
        = q.internal + (cs.countP (fun c => decide (0 ≤ c.guess j)) : Nat) ∧
      (record_rounds j cs q).external = q.external
  | [], q, _ => by simp [record_rounds]
  | c :: cs, q, h => by
    obtain ⟨h1, h2⟩ := h c (List.mem_cons_self _ _)
    obtain ⟨a, b⟩ := record_rounds_extreme j cs
      (if 0 ≤ c.guess j then DerandomPlayer.record_guess c.chopstick_count (c.guess j) q else q)
      (fun d hd => h d (List.mem_cons_of_mem _ hd))
    rw [record_rounds, a, b, List.countP_cons]
    by_cases hg : 0 ≤ c.guess j
    · have hx : c.guess j = 0 ∨ c.guess j = c.chopstick_count := by omega
      simp only [hg, if_true, decide_True, DerandomPlayer.record_guess, dist_extreme _ _ h1 hx]
      refine ⟨by push_cast; ring, by ring⟩
    · simp only [hg, if_false, decide_False]
      refine ⟨by simp, trivial⟩

/-- Rounds in which the guess revealed for the slot is, whenever it is not
negative, the midpoint add 1 to `external` per recorded guess and nothing to
`internal`. -/
theorem record_rounds_midpoint (j : Nat) :
    ∀ (cs : List Core) (q : quantile),
      (∀ c ∈ cs, c.guess j < 0 ∨ 2 * c.guess j = c.chopstick_count) →
      (record_rounds j cs q).internal = q.internal ∧
      (record_rounds j cs q).external
        = q.external + (cs.countP (fun c => decide (0 ≤ c.guess j)) : Nat)
  | [], q, _ => by simp [record_rounds]
  | c :: cs, q, h => by
    have h2 := h c (List.mem_cons_self _ _)
    obtain ⟨a, b⟩ := record_rounds_midpoint j cs
      (if 0 ≤ c.guess j then DerandomPlayer.record_guess c.chopstick_count (c.guess j) q else q)
      (fun d hd => h d (List.mem_cons_of_mem _ hd))
    rw [record_rounds, a, b, List.countP_cons]
    by_cases hg : 0 ≤ c.guess j
    · have hx : 2 * c.guess j = c.chopstick_count := by omega
      simp only [hg, if_true, decide_True, DerandomPlayer.record_guess, dist_midpoint _ _ hx]
      refine ⟨by ring, by push_cast; ring⟩
    · simp only [hg, if_false, decide_False]
      refine ⟨trivial, by simp⟩

/-! ## Reachable states -/

theorem hand_choice_quantiles (c : Core) (s : DerandomPlayer) :
    (DerandomPlayer.hand_choice c s).2.quantiles = s.quantiles := by
  unfold DerandomPlayer.hand_choice
  split_ifs <;> rfl

theorem begin_game_quantiles (c : Core) (s : DerandomPlayer) :
    (DerandomPlayer.begin_game c s).quantiles = List.replicate c.player_count quantile.fresh ∨
    (DerandomPlayer.begin_game c s).quantiles = s.quantiles := by
  unfold DerandomPlayer.begin_game
  dsimp only
  split_ifs
  · left; rfl
  · right; rfl

/-- In every reachable state each record has internal + external >= 0, and
internal + external > 0 once `already_played` is set. -/
theorem reachable_sum_pos (s : DerandomPlayer) (h : Reachable s) :
    ∀ q ∈ s.quantiles, 0 ≤ q.internal + q.external ∧
      (q.already_played = true → 0 < q.internal + q.external) := by
  induction h with
  | fresh s hs =>
    intro q hq
    rw [hs q hq]
    simp [quantile.fresh]
  | begin_game c s _ ih =>
    intro q hq
    rcases begin_game_quantiles c s with e | e
    · rw [e] at hq
      rw [List.eq_of_mem_replicate hq]
      simp [quantile.fresh]
    · rw [e] at hq
      exact ih q hq
  | end_round c s t _ _ ht ih =>
    intro q hq
    obtain ⟨j, hj⟩ := List.mem_iff_getElem?.mp hq
    rw [end_round_slot c s t ht j] at hj
    split_ifs at hj
    · cases hp : s.quantiles[j]? with
      | none => simp [hp] at hj
      | some p =>
        rw [hp, Option.map_some', Option.some.injEq] at hj
        have ihp := ih p (List.mem_iff_getElem?.mpr ⟨j, hp⟩)
        have e : q.internal + q.external = p.internal + p.external + 1 := by
          rw [← hj]
          simp only [DerandomPlayer.record_guess]
          ring
        rw [e]
        exact ⟨by linarith [ihp.1], fun _ => by linarith [ihp.1]⟩
    · exact ih q (List.mem_iff_getElem?.mpr ⟨j, hj⟩)
  | hand c s t v _ ht ih =>
    intro q hq
    unfold DerandomPlayer.hand at ht
    cases hu : DerandomPlayer.compute_counts c s with
    | none => simp [hu] at ht
    | some u =>
      rw [hu, Option.map_some', Option.some.injEq] at ht
      have e1 : t.quantiles = u.quantiles := by
        have := hand_choice_quantiles c u
        rw [ht] at this
        exact this
      have e2 : u.quantiles = s.quantiles := by
        rw [compute_counts_frame c s u hu]
      rw [e1, e2] at hq
      exact ih q hq

/-- Claim C13: in every state reachable from freshly reset records by
`begin_game`, `end_round` with chopstick_count > 0 and `hand`, every record with
`already_played` set has internal + external different from 0; so every slot the
tally computation classifies has a record whose classification is the ratio
test with a non-zero denominator. -/
theorem C13_played_records_have_nonzero_sum (s : DerandomPlayer) (h : Reachable s) :
    (∀ q ∈ s.quantiles, q.already_played = true → q.internal + q.external ≠ 0) ∧
    (∀ (c : Core) (v : Bool) (i : Nat), counted c s v i = true →
      ∃ q, s.quantiles[i]? = some q ∧ q.already_played = true ∧
        q.internal + q.external ≠ 0 ∧
        q.is_gaussian
          = decide (|q.internal - q.external| / (q.internal + q.external) > 1 / 8)) := by
  have key : ∀ q ∈ s.quantiles, q.already_played = true → q.internal + q.external ≠ 0 :=
    fun q hq hp => ne_of_gt ((reachable_sum_pos s h q hq).2 hp)
  refine ⟨key, fun c v i hc => ?_⟩
  unfold counted at hc
  cases hq : s.quantiles[i]? with
  | none => simp [hq] at hc
  | some q =>
    simp only [hq, Bool.and_eq_true] at hc
    have hp : q.already_played = true := hc.2.1
    have hne := key q (List.mem_iff_getElem?.mpr ⟨i, hq⟩) hp
    refine ⟨q, rfl, hp, hne, ?_⟩
    unfold quantile.is_gaussian
    rw [if_neg hne]

/-- Witness of C13: from two fresh records, one `end_round` with 20 chopsticks
and revealed guess 10 gives a reachable state. -/
theorem C13_played_records_have_nonzero_sum_witness :
    ∃ t, DerandomPlayer.end_round (demoRound 10) (demoPlayer quantile.fresh true) = some t ∧
      ∀ q ∈ t.quantiles, q.already_played = true → q.internal + q.external ≠ 0 := by
  obtain ⟨t, ht⟩ := end_round_some (demoRound 10) (demoPlayer quantile.fresh true)
    (by decide) (by decide)
  refine ⟨t, ht, (C13_played_records_have_nonzero_sum t
    (Reachable.end_round (demoRound 10) (demoPlayer quantile.fresh true) t
      (Reachable.fresh _ (by simp [demoPlayer])) (by decide) ht)).1⟩

/-! ## Symmetry of the classifier and the sum of the accumulators -/

/-- Claim C18: `is_gaussian` gives the same verdict when the two accumulators
are exchanged.  Consequently, over a sequence of rounds with chopstick_count > 0
in which the opponent's guess is recorded n > 0 times, starting from a fresh
record, an opponent whose recorded guesses are all 0 or chopstick_count ends
with the record (n, 0, true), an opponent whose recorded guesses are all the
midpoint ends with the record (0, n, true), and both are classified gaussian. -/
theorem C18_classifier_symmetric (cs : List Core) (s : DerandomPlayer) (j : Nat)
    (hn : 0 < cs.countP (fun c => decide (0 ≤ c.guess j)))
    (hne : (j : Int) ≠ s.my_index)
    (hfresh : s.quantiles[j]? = some quantile.fresh)
    (hcap : ∀ c ∈ cs, 0 < c.chopstick_count)
    (hlen : ∀ c ∈ cs, c.player_count = s.quantiles.length) :
    (∀ q : quantile,
      q.is_gaussian = quantile.is_gaussian ⟨q.external, q.internal, q.already_played⟩) ∧
    ∃ t q, run_rounds cs s = some t ∧ t.quantiles[j]? = some q ∧
      ((∀ c ∈ cs, c.guess j < 0 ∨ c.guess j = 0 ∨ c.guess j = c.chopstick_count) →
        q.internal = (cs.countP (fun c => decide (0 ≤ c.guess j)) : Nat) ∧ q.external = 0 ∧
        q.already_played = true ∧ q.is_gaussian = true) ∧
      ((∀ c ∈ cs, c.guess j < 0 ∨ 2 * c.guess j = c.chopstick_count) →
        q.internal = 0 ∧ q.external = (cs.countP (fun c => decide (0 ≤ c.guess j)) : Nat) ∧
        q.already_played = true ∧ q.is_gaussian = true) := by
  have hjl : j < s.quantiles.length := by
    by_contra hh
    rw [List.getElem?_eq_none (by omega)] at hfresh
    cases hfresh
  have hq : (0 : ℚ) < ((cs.countP (fun c => decide (0 ≤ c.guess j)) : Nat) : ℚ) := by
    exact_mod_cast hn
  constructor
  · intro q
    unfold quantile.is_gaussian
    simp only [add_comm q.external q.internal, abs_sub_comm q.external q.internal]
    by_cases h0 : q.internal + q.external = 0
    · rw [if_pos h0, if_pos h0]
      have : q.internal - q.external ≠ 0 ↔ q.external - q.internal ≠ 0 := by
        constructor <;> intro h hh <;> apply h <;> linarith
      simp only [this]
    · rw [if_neg h0, if_neg h0]
  · obtain ⟨t, ht⟩ := run_rounds_some cs s (fun c hc =>
      ⟨ne_of_gt (hcap c hc), le_of_eq (hlen c hc)⟩)
    have hs := run_rounds_slot j cs s t ht hne (fun c hc => by rw [hlen c hc]; exact hjl)
    rw [hfresh, Option.map_some'] at hs
    have hp : (record_rounds j cs quantile.fresh).already_played = true :=
      (record_rounds_sum j cs quantile.fresh).2.mpr (Or.inr hn)
    refine ⟨t, _, ht, hs, fun hx => ?_, fun hm => ?_⟩
    · obtain ⟨a, b⟩ := record_rounds_extreme j cs quantile.fresh
        (fun c hc => ⟨hcap c hc, hx c hc⟩)
      have a' : (record_rounds j cs quantile.fresh).internal
          = (cs.countP (fun c => decide (0 ≤ c.guess j)) : Nat) := by
        rw [a]; simp [quantile.fresh]
      have b' : (record_rounds j cs quantile.fresh).external = 0 := by
        rw [b]; rfl
      refine ⟨a', b', hp, ?_⟩
      unfold quantile.is_gaussian
      rw [a', b', add_zero, sub_zero, if_neg (ne_of_gt hq), abs_of_pos hq,
        div_self (ne_of_gt hq)]
      norm_num
    · obtain ⟨a, b⟩ := record_rounds_midpoint j cs quantile.fresh hm
      have a' : (record_rounds j cs quantile.fresh).internal = 0 := by
        rw [a]; rfl
      have b' : (record_rounds j cs quantile.fresh).external
          = (cs.countP (fun c => decide (0 ≤ c.guess j)) : Nat) := by
        rw [b]; simp [quantile.fresh]
      refine ⟨a', b', hp, ?_⟩
      unfold quantile.is_gaussian
      rw [a', b', zero_add, zero_sub, abs_neg, if_neg (ne_of_gt hq), abs_of_pos hq,
        div_self (ne_of_gt hq)]
      norm_num

/-- Witness of C18: one round with 20 chopsticks in which the opponent at slot 1
reveals the midpoint 10: its record becomes (0, 1, true) and is gaussian. -/
theorem C18_classifier_symmetric_witness :
    ∃ t q, run_rounds [demoRound 10] (demoPlayer quantile.fresh true) = some t ∧
      t.quantiles[1]? = some q ∧ q.internal = 0 ∧ q.already_played = true ∧
      q.is_gaussian = true := by
  obtain ⟨t, q, h1, h2, -, h3⟩ := (C18_classifier_symmetric [demoRound 10]
    (demoPlayer quantile.fresh true) 1 (by decide) (by decide) rfl (by simp [demoRound])
    (by simp [demoRound, demoPlayer])).2
  obtain ⟨a, -, b, d⟩ := h3 (by simp [demoRound])
  exact ⟨t, q, h1, h2, a, b, d⟩

/-- Claim C19 as stated fails at the player's own slot: after one `end_round`
with 20 chopsticks in which every revealed guess, the player's own included, is
10, the record at `my_index` is still the fresh one, so its internal + external
is 0 although that slot's revealed guess was non-negative in one call. -/
theorem C19_counterexample :
    (demoPlayer quantile.fresh true).quantiles[0]? = some quantile.fresh ∧
    ((0 : Nat) : Int) = (demoPlayer quantile.fresh true).my_index ∧
    0 < (demoRound 10).chopstick_count ∧
    [demoRound 10].countP (fun c => decide (0 ≤ c.guess (0 : Nat))) = 1 ∧
    ∃ t, run_rounds [demoRound 10] (demoPlayer quantile.fresh true) = some t ∧
      t.quantiles[0]? = some quantile.fresh ∧
      quantile.fresh.internal + quantile.fresh.external ≠ ((1 : Nat) : ℚ) := by
  refine ⟨rfl, rfl, by decide, by decide, ?_⟩
  obtain ⟨t, ht⟩ := end_round_some (demoRound 10) (demoPlayer quantile.fresh true)
    (by decide) (by decide)
  refine ⟨t, by rw [run_rounds, ht]; rfl, ?_, by simp [quantile.fresh]⟩
  rw [end_round_slot _ _ _ ht 0, if_neg]
  · rfl
  · rintro ⟨-, h, -⟩
    exact h rfl

/-- Claim C19, amended: for a slot other than `my_index` whose record is fresh,
a sequence of `end_round` calls with chopstick_count > 0 (one record per slot)
returns, and afterwards the record's internal + external equals the number n of
calls in which the guess revealed for the slot was not negative (exact
arithmetic); `already_played` is set exactly when n > 0, and the classification
ratio |internal - external| / (internal + external) is |2 * internal - n| / n. -/
theorem C19_sum_counts_recorded_guesses (cs : List Core) (s : DerandomPlayer) (j : Nat)
    (hne : (j : Int) ≠ s.my_index) (hfresh : s.quantiles[j]? = some quantile.fresh)
    (hcap : ∀ c ∈ cs, 0 < c.chopstick_count)
    (hlen : ∀ c ∈ cs, c.player_count = s.quantiles.length) :
    ∃ t q, run_rounds cs s = some t ∧ t.quantiles[j]? = some q ∧
      q.internal + q.external = (cs.countP (fun c => decide (0 ≤ c.guess j)) : Nat) ∧
      (q.already_played = true ↔ 0 < cs.countP (fun c => decide (0 ≤ c.guess j))) ∧
      |q.internal - q.external| / (q.internal + q.external)
        = |2 * q.internal - (cs.countP (fun c => decide (0 ≤ c.guess j)) : Nat)|
          / (cs.countP (fun c => decide (0 ≤ c.guess j)) : Nat) := by
  have hjl : j < s.quantiles.length := by
    by_contra hn
    rw [List.getElem?_eq_none (by omega)] at hfresh
    cases hfresh
  obtain ⟨t, ht⟩ := run_rounds_some cs s (fun c hc =>
    ⟨ne_of_gt (hcap c hc), le_of_eq (hlen c hc)⟩)
  have hs := run_rounds_slot j cs s t ht hne (fun c hc => by rw [hlen c hc]; exact hjl)
  rw [hfresh, Option.map_some'] at hs
  obtain ⟨h1, h2⟩ := record_rounds_sum j cs quantile.fresh
  have h1' : (record_rounds j cs quantile.fresh).internal
      + (record_rounds j cs quantile.fresh).external
      = (cs.countP (fun c => decide (0 ≤ c.guess j)) : Nat) := by
    rw [h1]
    simp [quantile.fresh]
  refine ⟨t, _, ht, hs, h1', ?_, ?_⟩
  · rw [h2]
    simp [quantile.fresh]
  · rw [h1']
    congr 2
    linarith

/-- Witness of C19 (amended): one round with 20 chopsticks in which the opponent
at slot 1 reveals the guess 10. -/
theorem C19_sum_counts_recorded_guesses_witness :
    ∃ t q, run_rounds [demoRound 10] (demoPlayer quantile.fresh true) = some t ∧
      t.quantiles[1]? = some q ∧ q.internal + q.external = ((1 : Nat) : ℚ) := by
  obtain ⟨t, q, h1, h2, h3, -⟩ := C19_sum_counts_recorded_guesses [demoRound 10]
    (demoPlayer quantile.fresh true) 1 (by decide) rfl (by simp [demoRound])
    (by simp [demoRound, demoPlayer])
  refine ⟨t, q, h1, h2, ?_⟩
  rw [h3]
  simp [demoRound]

end royer
